import Mathlib

/-!
Verification of the TrustLoop support-intelligence core.

This file gives a shallow embedding, in Lean 4, of the pure core of the
TrustLoop repository: the term extractor and relevance scorer
(src/lib/excel-parser.ts), the tolerant JSON parser (src/lib/json.ts),
the generation orchestrator result normalisation
(src/app/actions/analyzeTicket.ts), and the dashboard state machine with
its localStorage persistence (the dashboard component).

JavaScript strings are modelled as `List Char` (UTF-16 details such as
surrogate pairs do not affect any of the constructs used here: the code
only compares, slices and scans characters that are plain scalars).
JavaScript numbers appearing in parsed JSON are modelled as rationals;
the `NaN` produced by `Number(...)` on non-numeric input is modelled
explicitly by the `JsNum` type.  Fallible operations (JSON.parse throwing)
are modelled with `Option`.
-/

namespace TrustLoop

/-- JavaScript strings, modelled as lists of characters. -/
abbrev Str := List Char

/-- The character classes of the JavaScript regexp escape `\s` (whitespace),
restricted to the code points that can actually occur in this code base
(ASCII whitespace plus NBSP and BOM; the remaining Unicode space
separators are omitted, they are never produced by the data flow here). -/
def isJsWs (c : Char) : Bool :=
  c = ' ' || c = '\t' || c = '\n' || c = '\r' || c = '\x0b' || c = '\x0c' ||
    c = '\u00A0' || c = '\uFEFF'

/-- The character class of the JavaScript regexp escape `\w`: latin
letters (codes 97-122 and 65-90), digits (48-57), underscore (95). -/
def isWordChar (c : Char) : Bool :=
  let n := c.toNat
  (97 ≤ n && n ≤ 122) || (65 ≤ n && n ≤ 90) || (48 ≤ n && n ≤ 57) || n == 95

/-- `String.prototype.trim`: strip `\s` characters from both ends. -/
def jsTrim (s : Str) : Str :=
  ((s.dropWhile isJsWs).reverse.dropWhile isJsWs).reverse

/-- `String.prototype.toLowerCase`, ASCII part (`Char.toLower` maps exactly
the basic latin letters, which is all that reaches the matchers here). -/
def lowerStr (s : Str) : Str := s.map Char.toLower

/-- `String.prototype.toUpperCase`, ASCII part. -/
def upperStr (s : Str) : Str := s.map Char.toUpper

/-- Decidable test that `pat` is an initial segment of `s`. -/
def leadsWith (pat s : Str) : Bool :=
  match pat with
  | [] => true
  | a :: as =>
    match s with
    | [] => false
    | b :: bs => a == b && leadsWith as bs

/-- `String.prototype.includes`: `needle` occurs contiguously in `hay`. -/
def hasSub (needle : Str) : Str → Bool
  | [] => leadsWith needle []
  | c :: cs => leadsWith needle (c :: cs) || hasSub needle cs

/-- Fuel-indexed splitter (the fuel keeps the recursion structural, so
that the kernel can evaluate it; `wordsBy` supplies the input length,
which always suffices). -/
def wordsByGo (p : Char → Bool) : Nat → Str → List Str
  | _, [] => []
  | 0, _ :: _ => []
  | Nat.succ n, c :: cs =>
    if p c then wordsByGo p n cs
    else (c :: cs.takeWhile (fun x => !p x)) :: wordsByGo p n (cs.dropWhile (fun x => !p x))

/-- Split a string into its maximal runs of characters rejected by `p`,
discarding the separators.  This models `String.prototype.split(/\s+/)`
composed with the removal of empty fragments: the JavaScript split can
yield one empty leading fragment, which every caller in the source
filters away by a minimum-length test. -/
def wordsBy (p : Char → Bool) (s : Str) : List Str := wordsByGo p s.length s

/-- Deduplication keeping the first occurrence, as `[...new Set(xs)]`
does in JavaScript (`seen` accumulates the values already emitted). -/
def dedupFirstGo [DecidableEq α] (seen : List α) : List α → List α
  | [] => []
  | a :: l => if a ∈ seen then dedupFirstGo seen l else a :: dedupFirstGo (a :: seen) l

/-- `[...new Set(xs)]`: deduplicate preserving first occurrences. -/
def dedupFirst [DecidableEq α] (l : List α) : List α := dedupFirstGo [] l

/-! ### JSON values and the strict parser (`JSON.parse`)

`src/lib/json.ts` first attempts `JSON.parse` on the raw text.  The
strict parser is embedded below on ECMA-404 grammar: whitespace is
space, tab, line feed, carriage return; strings reject unescaped
control characters (code points below 32); numbers are
`-? (0 | [1-9][0-9]*) frac? exp?`.  Numbers are modelled as exact
rationals (every JSON literal denotes one; IEEE rounding is immaterial
here because all compared values come from identical literals). -/

/-- Parsed JSON values.  Object fields keep their textual order;
`lookupLast` below resolves duplicate keys the way JavaScript object
literals do (the last occurrence wins). -/
inductive JsonValue where
  | null : JsonValue
  | bool (b : Bool) : JsonValue
  | num (q : ℚ) : JsonValue
  | str (s : Str) : JsonValue
  | arr (elems : List JsonValue) : JsonValue
  | obj (fields : List (Str × JsonValue)) : JsonValue

/-- JSON insignificant whitespace. -/
def isJsonWs (c : Char) : Bool := c = ' ' || c = '\t' || c = '\n' || c = '\r'

/-- Skip insignificant whitespace. -/
def skipWs (s : Str) : Str := s.dropWhile isJsonWs

/-- ASCII digit test (code points 48 to 57). -/
def isDigit (c : Char) : Bool := 48 ≤ c.toNat && c.toNat ≤ 57

/-- Numeric value of an ASCII digit. -/
def digitVal (c : Char) : Nat := c.toNat - 48

/-- Numeric value of a hexadecimal digit, if any (codes 48-57 digits,
97-102 lower case, 65-70 upper case). -/
def hexVal (c : Char) : Option Nat :=
  let n := c.toNat
  if 48 ≤ n ∧ n ≤ 57 then some (n - 48)
  else if 97 ≤ n ∧ n ≤ 102 then some (n - 87)
  else if 65 ≤ n ∧ n ≤ 70 then some (n - 55)
  else none

/-- Nat denoted by a digit string (most significant first). -/
def natOfDigits (ds : Str) : Nat := ds.foldl (fun a c => a * 10 + digitVal c) 0

/-- Parse the body of a JSON string literal, the opening quote already
consumed; returns the decoded characters and the remaining input.
Unescaped control characters are rejected, as `JSON.parse` does.  A
`\u` escape denoting a surrogate half (which Lean characters cannot
represent) collapses to `Char.ofNat`'s default; no input considered in
this development contains one. -/
def parseStringBody : Str → Option (Str × Str)
  | [] => none
  | '"' :: cs => some ([], cs)
  | '\\' :: [] => none
  | '\\' :: e :: cs =>
    if e = '"' || e = '\\' || e = '/' then
      (parseStringBody cs).map (fun r => (e :: r.1, r.2))
    else if e = 'b' then (parseStringBody cs).map (fun r => ('\x08' :: r.1, r.2))
    else if e = 'f' then (parseStringBody cs).map (fun r => ('\x0c' :: r.1, r.2))
    else if e = 'n' then (parseStringBody cs).map (fun r => ('\n' :: r.1, r.2))
    else if e = 'r' then (parseStringBody cs).map (fun r => ('\r' :: r.1, r.2))
    else if e = 't' then (parseStringBody cs).map (fun r => ('\t' :: r.1, r.2))
    else if e = 'u' then
      match cs with
      | h1 :: h2 :: h3 :: h4 :: rest =>
        match hexVal h1, hexVal h2, hexVal h3, hexVal h4 with
        | some a, some b, some c, some d =>
          (parseStringBody rest).map
            (fun r => (Char.ofNat (((a * 16 + b) * 16 + c) * 16 + d) :: r.1, r.2))
        | _, _, _, _ => none
      | _ => none
    else none
  | c :: cs =>
    if c.toNat < 32 then none
    else (parseStringBody cs).map (fun r => (c :: r.1, r.2))

/-- Parse the optional exponent part of a JSON number. -/
def parseExpPart (s : Str) : Option (ℤ × Str) :=
  match s with
  | 'e' :: r | 'E' :: r =>
    let (neg, r1) := match r with
      | '+' :: rr => (false, rr)
      | '-' :: rr => (true, rr)
      | _ => (false, r)
    let ds := r1.takeWhile isDigit
    if ds = [] then none
    else some ((if neg then -(natOfDigits ds : ℤ) else (natOfDigits ds : ℤ)),
               r1.dropWhile isDigit)
  | _ => some (0, s)

/-- Parse a JSON number: `-? (0 | [1-9][0-9]*) (. [0-9]+)? ([eE][+-]?[0-9]+)?`. -/
def parseNumber (s : Str) : Option (ℚ × Str) :=
  let (neg, s1) := match s with
    | '-' :: r => (true, r)
    | _ => (false, s)
  match s1 with
  | '0' :: r =>
    parseNumberTail neg ['0'] r
  | c :: _ =>
    if isDigit c then parseNumberTail neg (s1.takeWhile isDigit) (s1.dropWhile isDigit)
    else none
  | [] => none
where
  parseNumberTail (neg : Bool) (ip : Str) (r : Str) : Option (ℚ × Str) :=
    match r with
    | '.' :: rr =>
      let fp := rr.takeWhile isDigit
      if fp = [] then none
      else parseNumberVal neg ip fp (rr.dropWhile isDigit)
    | _ => parseNumberVal neg ip [] r
  parseNumberVal (neg : Bool) (ip fp : Str) (r2 : Str) : Option (ℚ × Str) :=
    match parseExpPart r2 with
    | none => none
    | some (ex, r3) =>
      let m : ℚ := natOfDigits (ip ++ fp)
      let v : ℚ := m / (10 : ℚ) ^ fp.length * (10 : ℚ) ^ ex
      some ((if neg then -v else v), r3)

mutual

/-- Parse one JSON value (leading whitespace allowed); fuel-indexed so
that the recursion is structurally decreasing.  `jsonParse` supplies
fuel exceeding any possible nesting depth. -/
def parseValue : Nat → Str → Option (JsonValue × Str)
  | 0, _ => none
  | Nat.succ n, s =>
    match skipWs s with
    | '{' :: r => (parseObjFields n true r).map (fun p => (.obj p.1, p.2))
    | '[' :: r => (parseArrayElems n true r).map (fun p => (.arr p.1, p.2))
    | '"' :: r => (parseStringBody r).map (fun p => (.str p.1, p.2))
    | rest =>
      if leadsWith (("true").data) rest then some (.bool true, rest.drop 4)
      else if leadsWith (("false").data) rest then some (.bool false, rest.drop 5)
      else if leadsWith (("null").data) rest then some (.null, rest.drop 4)
      else (parseNumber rest).map (fun p => (.num p.1, p.2))

/-- Parse the members of an object, after the opening brace; the flag
allows an immediately closing brace (empty object / no trailing comma). -/
def parseObjFields : Nat → Bool → Str → Option (List (Str × JsonValue) × Str)
  | 0, _, _ => none
  | Nat.succ n, allowEmpty, s =>
    match skipWs s with
    | '}' :: r => if allowEmpty then some ([], r) else none
    | '"' :: r =>
      match parseStringBody r with
      | none => none
      | some (key, r2) =>
        match skipWs r2 with
        | ':' :: r3 =>
          match parseValue n r3 with
          | none => none
          | some (v, r4) =>
            match skipWs r4 with
            | ',' :: r5 => (parseObjFields n false r5).map (fun p => ((key, v) :: p.1, p.2))
            | '}' :: r5 => some ([(key, v)], r5)
            | _ => none
        | _ => none
    | _ => none

/-- Parse the elements of an array, after the opening bracket. -/
def parseArrayElems : Nat → Bool → Str → Option (List JsonValue × Str)
  | 0, _, _ => none
  | Nat.succ n, allowEmpty, s =>
    match skipWs s with
    | ']' :: r => if allowEmpty then some ([], r) else none
    | rest =>
      match parseValue n rest with
      | none => none
      | some (v, r2) =>
        match skipWs r2 with
        | ',' :: r3 => (parseArrayElems n false r3).map (fun p => (v :: p.1, p.2))
        | ']' :: r3 => some ([v], r3)
        | _ => none

end

/-- `JSON.parse`: parse one value and require only whitespace after it. -/
def jsonParse (s : Str) : Option JsonValue :=
  match parseValue (s.length + 1) s with
  | some (v, rest) => if skipWs rest = [] then some v else none
  | none => none

/-- Field access `data.key` on a parsed value: `none` (undefined) unless
the value is an object carrying the key; the last occurrence wins, as
in JavaScript. -/
def lookupLast (k : Str) : List (Str × JsonValue) → Option JsonValue
  | [] => none
  | (k2, v) :: rest =>
    match lookupLast k rest with
    | some r => some r
    | none => if k2 = k then some v else none

/-- JavaScript property read `v.k` for the property names used here. -/
def jlookup (v : JsonValue) (k : Str) : Option JsonValue :=
  match v with
  | .obj fields => lookupLast k fields
  | _ => none

/-! ### The tolerant parser (`src/lib/json.ts`, `parseJsonSafe`) -/

/-- The rewriting loop of `parseJsonSafe`, one character at a time.
First argument: `inString`; second: `escape` (the previous character
was an unconsumed backslash).  Mirrors the TypeScript loop exactly:
the escape flag is checked first, then backslash, then the in/out of
string branches; inside a string, control characters (code points up
to 31) become `\n` / `\r` / `\t` escapes or a single space. -/
def fixGo : Bool → Bool → Str → Str
  | _, _, [] => []
  | inStr, true, c :: cs => c :: fixGo inStr false cs
  | inStr, false, c :: cs =>
    if c = '\\' then c :: fixGo inStr true cs
    else if inStr then
      if c = '"' then c :: fixGo false false cs
      else if c.toNat ≤ 31 then
        (if c = '\n' then ['\\', 'n']
         else if c = '\r' then ['\\', 'r']
         else if c = '\t' then ['\\', 't']
         else [' ']) ++ fixGo true false cs
      else c :: fixGo true false cs
    else if c = '"' then c :: fixGo true false cs
    else c :: fixGo false false cs

/-- The control-character rewrite applied by `parseJsonSafe` when the
strict parse fails. -/
def fixControlChars (raw : Str) : Str := fixGo false false raw

/-- `parseJsonSafe` (src/lib/json.ts): strict parse, then on failure the
rewrite followed by a second strict parse; `none` models the re-thrown
parse failure. -/
def parseJsonSafe (raw : Str) : Option JsonValue :=
  match jsonParse raw with
  | some v => some v
  | none => jsonParse (fixControlChars raw)

/-! ### JavaScript number and string coercions

`analyzeTicket` normalises untyped parsed fields with `Number(...)`,
`String(...)`, truthiness tests and `Math.min`/`Math.max`.  `JsNum`
models a JavaScript number: either NaN or a rational value. -/

/-- A JavaScript number: NaN or a (rational) value. -/
inductive JsNum where
  | nan : JsNum
  | val (q : ℚ) : JsNum
deriving DecidableEq

/-- `Math.min`: NaN-propagating minimum. -/
def jsMin : JsNum → JsNum → JsNum
  | .nan, _ => .nan
  | _, .nan => .nan
  | .val a, .val b => .val (min a b)

/-- `Math.max`: NaN-propagating maximum. -/
def jsMax : JsNum → JsNum → JsNum
  | .nan, _ => .nan
  | _, .nan => .nan
  | .val a, .val b => .val (max a b)

/-- Models `Number(e) ?? d` in the source: the nullish coalescing
operator substitutes the default only for `null`/`undefined`, and
`Number` never returns those, so the default is dead code and NaN
flows through unchanged. -/
def coalesceNum (x : JsNum) (_d : ℚ) : JsNum := x

/-- `Number(string)` on a trimmed non-empty string: sign, digits,
optional fraction and exponent, the whole string consumed.  The exotic
accepted forms (hexadecimal, `Infinity`) are not modelled; no string
reaching this conversion in the claims uses them. -/
def parseNumLoose (t : Str) : JsNum :=
  let (sgn, t1) : ℚ × Str := match t with
    | '+' :: r => (1, r)
    | '-' :: r => (-1, r)
    | _ => (1, t)
  let ip := t1.takeWhile isDigit
  let r1 := t1.dropWhile isDigit
  let (fp, r2) : Str × Str := match r1 with
    | '.' :: rr => (rr.takeWhile isDigit, rr.dropWhile isDigit)
    | _ => ([], r1)
  if ip = [] ∧ fp = [] then .nan
  else
    match parseExpPart r2 with
    | none => .nan
    | some (ex, r3) =>
      if r3 = [] then
        .val (sgn * ((natOfDigits (ip ++ fp) : ℚ) / (10 : ℚ) ^ fp.length) * (10 : ℚ) ^ ex)
      else .nan

/-- `Number(string)`: whitespace-trimmed; empty gives 0. -/
def jsStrToNumber (s : Str) : JsNum :=
  let t := jsTrim s
  if t = [] then .val 0 else parseNumLoose t

/-- Decimal digits of the fractional part `r / d` (`r < d`), fuel-bounded;
every number produced by the JSON parser has a terminating decimal
expansion, reached long before the fuel runs out. -/
def fracDigitsGo : Nat → Nat → Nat → Str
  | 0, _, _ => []
  | Nat.succ fuel, r, d =>
    if r = 0 then []
    else Char.ofNat ('0'.toNat + r * 10 / d) :: fracDigitsGo fuel (r * 10 % d) d

/-- Decimal representation of a non-negative rational. -/
def numToStringNN (q : ℚ) : Str :=
  let n := q.num.toNat
  let d := q.den
  let fr := fracDigitsGo 400 (n % d) d
  if fr = [] then (Nat.repr (n / d)).data
  else (Nat.repr (n / d)).data ++ '.' :: fr

/-- `String(number)` for the finite-decimal rationals occurring here
(JavaScript switches to exponent notation only for magnitudes no JSON
field in this development reaches). -/
def numToString (q : ℚ) : Str :=
  if q < 0 then '-' :: numToStringNN (-q) else numToStringNN q

/-- `String(v)`, fuel-indexed for nested arrays (`Array.prototype.join`
renders `null` elements as empty). -/
def jsToStringGo : Nat → JsonValue → Str
  | 0, _ => []
  | Nat.succ n, v =>
    match v with
    | .null => ("null").data
    | .bool true => ("true").data
    | .bool false => ("false").data
    | .str s => s
    | .num q => numToString q
    | .arr xs =>
      List.intercalate [','] (xs.map (fun x => match x with
        | .null => []
        | y => jsToStringGo n y))
    | .obj _ => ("[object Object]").data

/-- `String(v)` on a JavaScript value. -/
def jsToString (v : JsonValue) : Str := jsToStringGo 100 v

/-- `Number(v)` on a JavaScript value (`undefined` as `none`). -/
def jsNumberOf : Option JsonValue → JsNum
  | none => .nan
  | some .null => .val 0
  | some (.bool b) => .val (if b then 1 else 0)
  | some (.num q) => .val q
  | some (.str s) => jsStrToNumber s
  | some (.arr xs) => jsStrToNumber (jsToString (.arr xs))
  | some (.obj _) => .nan

/-- JavaScript truthiness of a parsed JSON value. -/
def truthy : JsonValue → Bool
  | .null => false
  | .bool b => b
  | .num q => decide (q ≠ 0)
  | .str s => decide (s ≠ [])
  | .arr _ => true
  | .obj _ => true

/-- Truthiness of a possibly-undefined property. -/
def truthyOpt : Option JsonValue → Bool
  | none => false
  | some v => truthy v

/-! ### Term extractor and relevance scorer (src/lib/excel-parser.ts)

The corpora, loaded from the spreadsheet in the source, are passed as
parameters here (the loaders only read files and memoise). -/

/-- The stopword source string of `extractSearchTerms`, verbatim. -/
def stopSource : Str :=
  ("a an the and or but in on at to for of with by from as is was are were be been being have has had do does did will would could should may might must shall can need dare ought used").data

/-- The stopword set (`.split(" ")` of the source string). -/
def stopwords : List Str := wordsBy (fun c => c == ' ') stopSource

/-- The replacement `[^\w\s]` → space of `extractSearchTerms`. -/
def replaceNonWord (c : Char) : Char :=
  if !(isWordChar c || isJsWs c) then ' ' else c

/-- The token filter of `extractSearchTerms`:
`w.length > 1 && !stop.has(w)`. -/
def keepTerm (w : Str) : Bool :=
  decide (1 < w.length) && !(decide (w ∈ stopwords))

/-- `extractSearchTerms`: lowercase, replace `[^\w\s]` by a space, split
on whitespace, keep tokens of length above 1 that are not stopwords,
deduplicate keeping first occurrences. -/
def extractSearchTerms (text : Str) : List Str :=
  let lowered := lowerStr text
  let replaced := lowered.map replaceNonWord
  let words := (wordsBy isJsWs replaced).filter keepTerm
  dedupFirst words

/-- Space-join of a term list (the joined output on which the claim
re-extracts). -/
def joinSpace : List Str → Str
  | [] => []
  | [w] => w
  | w :: w2 :: rest => w ++ ' ' :: joinSpace (w2 :: rest)

/-- A `Knowledge_Articles` row (the searchable fields). -/
structure KnowledgeArticleRow where
  KB_Article_ID : Str
  Title : Option Str := none
  Body : Option Str := none
  Tags : Option Str := none
  Module : Option Str := none
  Category : Option Str := none
deriving DecidableEq

/-- A `Scripts_Master` row (the searchable fields). -/
structure ScriptRow where
  Script_ID : Str
  Script_Title : Option Str := none
  Script_Purpose : Option Str := none
  Module : Option Str := none
  Category : Option Str := none
deriving DecidableEq

/-- A `Tickets` row (the fields `analyzeTicket` reads). -/
structure TicketRow where
  Ticket_Number : Str
  Priority : Option Str := none
  Subject : Option Str := none
  Description : Option Str := none
  Category : Option Str := none
deriving DecidableEq

/-- The lowercased haystack `` `${title} ${body} ${tags}` `` built by
`searchKnowledgeArticles` (absent fields default to the empty string). -/
def kbHaystack (art : KnowledgeArticleRow) : Str :=
  lowerStr (art.Title.getD []) ++ ' ' :: lowerStr (art.Body.getD []) ++ ' ' ::
    lowerStr (art.Tags.getD [])

/-- The lowercased haystack `` `${title} ${purpose} ${cat}` `` built by
`searchScripts`. -/
def scriptHaystack (s : ScriptRow) : Str :=
  lowerStr (s.Script_Title.getD []) ++ ' ' :: lowerStr (s.Script_Purpose.getD []) ++ ' ' ::
    lowerStr (s.Category.getD [])

/-- The scoring loop: one point per search term occurring in the haystack. -/
def scoreOf (searchTerms : List Str) (hay : Str) : ℕ :=
  searchTerms.countP (fun t => hasSub t hay)

/-- The order imposed by the comparator `(a, b) => b.score - a.score`
(`Array.prototype.sort` is a stable sort, modelled by `insertionSort`,
which is stable). -/
def scoreDesc (x y : α × ℕ) : Prop := y.2 ≤ x.2

instance : DecidableRel (scoreDesc (α := α)) := fun x y => Nat.decLe y.2 x.2

instance : IsTotal (α × ℕ) scoreDesc := ⟨fun x y => Nat.le_total y.2 x.2⟩

instance : IsTrans (α × ℕ) scoreDesc := ⟨fun _ _ _ h1 h2 => Nat.le_trans h2 h1⟩

/-- `searchKnowledgeArticles`: score every article, sort descending by
score (stable), drop zero scores, truncate, return the rows. -/
def searchKnowledgeArticles (searchTerms : List Str)
    (articles : List KnowledgeArticleRow) (limit : ℕ := 10) : List KnowledgeArticleRow :=
  let scored := articles.map (fun art => (art, scoreOf searchTerms (kbHaystack art)))
  let sorted := scored.insertionSort scoreDesc
  ((sorted.filter (fun s => decide (0 < s.2))).take limit).map Prod.fst

/-- `searchScripts`: identical pipeline over the scripts corpus. -/
def searchScripts (searchTerms : List Str)
    (scripts : List ScriptRow) (limit : ℕ := 5) : List ScriptRow :=
  let scored := scripts.map (fun s => (s, scoreOf searchTerms (scriptHaystack s)))
  let sorted := scored.insertionSort scoreDesc
  ((sorted.filter (fun x => decide (0 < x.2))).take limit).map Prod.fst

/-! Specification-side search description, written from the claim: the
records whose score is at least one, sorted by descending count of
distinct matched terms, ties in original corpus order, first `limit`. -/

/-- Number of distinct search terms matching the haystack. -/
def distinctScore (searchTerms : List Str) (hay : Str) : ℕ :=
  ((searchTerms.filter (fun t => hasSub t hay)).dedup).length

/-- Descending score with ties broken by original position: a strict
specification of "sorted by score descending, ties in corpus order". -/
def lexDesc (f : α → ℕ) (x y : ℕ × α) : Prop :=
  f y.2 < f x.2 ∨ (f x.2 = f y.2 ∧ x.1 ≤ y.1)

instance (f : α → ℕ) : DecidableRel (lexDesc f) := fun x y => by
  unfold lexDesc; infer_instance

/-- Descending order on records keyed by their score. -/
def keyDesc (f : α → ℕ) (x y : α) : Prop := f y ≤ f x

instance (f : α → ℕ) : DecidableRel (keyDesc f) := fun x y => Nat.decLe (f y) (f x)

/-- The claim's description of the search result, for score function `f`:
exactly the records scoring at least 1, in descending score order with
ties in original corpus order, truncated to `limit`. -/
def searchSpec (f : α → ℕ) (records : List α) (limit : ℕ) : List α :=
  ((((records.enum.filter (fun p => decide (1 ≤ f p.2))).insertionSort
      (lexDesc f)).map Prod.snd).take limit)

/-! ### Generation orchestrator (src/app/actions/analyzeTicket.ts)

The two external effects — the Gemini calls of stage 1 and stage 2 —
enter the model as outcome parameters; everything the function does
with them is embedded.  The prompt strings do not flow into the result
and are not modelled. -/

/-- Where a surfaced knowledge source came from. -/
inductive SourceKind where
  | seed : SourceKind
  | learned : SourceKind
deriving DecidableEq

/-- An element of `sources_used`. -/
structure KnowledgeSource where
  id : Str
  title : Str
  snippet : Str
  source : SourceKind
  ticketId : Option Str := none
deriving DecidableEq

/-- `recommended_resource.type` values accepted by the validator. -/
inductive ResourceType where
  | KB : ResourceType
  | SCRIPT : ResourceType
deriving DecidableEq

/-- A validated recommended resource. -/
structure RecommendedResource where
  type : ResourceType
  id : Str
  title : Option Str := none
deriving DecidableEq

/-- The compliance verdict. -/
inductive ComplianceStatus where
  | SAFE : ComplianceStatus
  | UNSAFE : ComplianceStatus
  | UNKNOWN : ComplianceStatus
deriving DecidableEq

/-- An article learned in-session, as passed back into `analyzeTicket`. -/
structure LearnedArticle where
  id : Str
  title : Str
  body : Str
  ticketId : Str
deriving DecidableEq

/-- The result shape of `analyzeTicket`.  `solution` is kept untyped
(`JsonValue`) because the source assigns `parsed.solution` without a
type check; `confidence_score` is a JavaScript number (possibly NaN). -/
structure AnalyzeTicketResult where
  solution : JsonValue
  confidence_score : JsNum
  new_knowledge_draft : Option Str
  compliance_status : ComplianceStatus
  sources_used : List KnowledgeSource
  recommended_resource : Option RecommendedResource
  qa_score : Option ℚ
  red_flags : List Str
  coaching_tip : Option Str
  error : Option Str := none

/-- Outcome of the stage-1 `generateContent` call. -/
inductive CallResult where
  | fail (msg : Str) : CallResult
  | ok (text : Str) : CallResult

/-- Outcome of the pair of stage-2 calls: the `Promise.all` either
rejects as a whole or yields both reply texts. -/
inductive Stage2Outcome where
  | netFail : Stage2Outcome
  | ok (complianceText qaText : Str) : Stage2Outcome

/-- The opening brace character. -/
def braceL : Char := Char.ofNat 123

/-- The closing brace character. -/
def braceR : Char := Char.ofNat 125

/-- The regexp match `text.match(/\{[\s\S]*\}/)`: from the first opening
brace to the last closing brace after it, if both exist. -/
def braceSlice (s : Str) : Option Str :=
  let fromBrace := s.dropWhile (fun c => !(c == braceL))
  match fromBrace with
  | [] => none
  | _ :: _ =>
    let upto := (fromBrace.reverse.dropWhile (fun c => !(c == braceR))).reverse
    if upto = [] then none else some upto

/-- `parsed.solution ?? "No solution generated."` (nullish default). -/
def solutionOf (parsed : JsonValue) : JsonValue :=
  match jlookup parsed (("solution").data) with
  | some .null => .str (("No solution generated.").data)
  | some v => v
  | none => .str (("No solution generated.").data)

/-- `Math.min(1, Math.max(0, Number(parsed.confidence_score) ?? 0.5))`,
exactly as written: the nullish default never fires (see `coalesceNum`)
and NaN propagates through the clamp. -/
def confidenceOf (parsed : JsonValue) : JsNum :=
  jsMin (.val 1) (jsMax (.val 0)
    (coalesceNum (jsNumberOf (jlookup parsed (("confidence_score").data))) (1 / 2)))

/-- The draft normalisation: a truthy value whose string form trims to
something non-empty, else null. -/
def draftOf (parsed : JsonValue) : Option Str :=
  match jlookup parsed (("new_knowledge_draft").data) with
  | none => none
  | some v =>
    if truthy v then
      let s := jsTrim (jsToString v)
      if s = [] then none else some s
    else none

/-- The `recommended_resource` validator: object truthy, `type` and `id`
truthy, `type` strictly equal to the string `KB` or `SCRIPT`; the title
is optional and capped at 120 characters. -/
def recResOf (parsed : JsonValue) : Option RecommendedResource :=
  match jlookup parsed (("recommended_resource").data) with
  | none => none
  | some rr =>
    match jlookup rr (("type").data), jlookup rr (("id").data) with
    | some tv, some idv =>
      if truthy rr && truthy tv && truthy idv then
        match tv with
        | .str t =>
          if t = ("KB").data then
            some { type := .KB, id := jsToString idv, title := recTitleOf rr }
          else if t = ("SCRIPT").data then
            some { type := .SCRIPT, id := jsToString idv, title := recTitleOf rr }
          else none
        | _ => none
      else none
    | _, _ => none
where
  recTitleOf (rr : JsonValue) : Option Str :=
    match jlookup rr (("title").data) with
    | some ttv => if truthy ttv then some ((jsToString ttv).take 120) else none
    | none => none

/-- `qa_score` normalisation: only a number is accepted, clamped to [0,100]. -/
def qaScoreOf (qaParsed : JsonValue) : Option ℚ :=
  match jlookup qaParsed (("qa_score").data) with
  | some (.num q) => some (max 0 (min 100 q))
  | _ => none

/-- `red_flags` normalisation: an array filtered to its string elements. -/
def redFlagsOf (qaParsed : JsonValue) : List Str :=
  match jlookup qaParsed (("red_flags").data) with
  | some (.arr xs) => xs.filterMap (fun x => match x with | .str s => some s | _ => none)
  | _ => []

/-- `coaching_tip` normalisation: a string with non-blank trim, trimmed. -/
def coachingTipOf (qaParsed : JsonValue) : Option Str :=
  match jlookup qaParsed (("coaching_tip").data) with
  | some (.str s) => if jsTrim s = [] then none else some (jsTrim s)
  | _ => none

/-- The stage-2 fields of the result. -/
structure Stage2Fields where
  compliance_status : ComplianceStatus
  qa_score : Option ℚ
  red_flags : List Str
  coaching_tip : Option Str
deriving DecidableEq

/-- The stage-2 block: on a `Promise.all` rejection everything keeps its
initial value; on success the compliance verdict is assigned first, and
a subsequent QA parse failure (an exception swallowed by the same catch)
leaves the QA fields at their initial values while the compliance
verdict, already assigned, stands. -/
def runStage2 : Stage2Outcome → Stage2Fields
  | .netFail => ⟨.UNKNOWN, none, [], none⟩
  | .ok c q =>
    let compliance :=
      if hasSub (("UNSAFE").data) (upperStr (jsTrim c)) then ComplianceStatus.UNSAFE
      else ComplianceStatus.SAFE
    match braceSlice (jsTrim q) with
    | none => ⟨compliance, none, [], none⟩
    | some js =>
      match parseJsonSafe js with
      | none => ⟨compliance, none, [], none⟩
      | some qaParsed =>
        ⟨compliance, qaScoreOf qaParsed, redFlagsOf qaParsed, coachingTipOf qaParsed⟩

/-- The single fatal result of the outer catch. -/
def fatalResult (msg : Str) : AnalyzeTicketResult :=
  { solution := .str (("Analysis failed: ").data ++ msg)
    confidence_score := .val 0
    new_knowledge_draft := none
    compliance_status := .UNKNOWN
    sources_used := []
    recommended_resource := none
    qa_score := none
    red_flags := []
    coaching_tip := none
    error := some msg }

/-- The immediate return when the API key is missing (or empty: `!apiKey`). -/
def missingKeyResult : AnalyzeTicketResult :=
  { solution := .str (("Error: Gemini API key not configured.").data)
    confidence_score := .val 0
    new_knowledge_draft := none
    compliance_status := .UNKNOWN
    sources_used := []
    recommended_resource := none
    qa_score := none
    red_flags := []
    coaching_tip := none
    error := some (("Missing API key").data) }

/-- Stand-in text of the `SyntaxError` thrown by a failed parse; the
actual message is engine-specific and only its presence matters. -/
def jsonSyntaxMsg : Str := ("Unexpected token in JSON").data

/-- JavaScript `a || b` on strings: the empty string is falsy. -/
def orElseStr (a b : Str) : Str := if a = [] then b else a

/-- The `sources_used` assembly: learned articles first, then the seed
articles used in context. -/
def sourcesUsedOf (learnedArticles : List LearnedArticle)
    (seedArticles : List KnowledgeArticleRow) : List KnowledgeSource :=
  learnedArticles.map (fun a =>
    { id := a.id, title := a.title, snippet := a.body.take 200,
      source := .learned, ticketId := some a.ticketId })
  ++ seedArticles.map (fun a =>
    { id := a.KB_Article_ID, title := (a.Title.getD []).take 120,
      snippet := (a.Body.getD []).take 200, source := .seed })

/-- The success-path result assembly of `analyzeTicket`, after a
successful stage-1 parse.  The stage-2 fields run only when the
solution is a string: on any other value, building the stage-2 prompts
throws (`solution.slice` is not a function) inside the same try block,
and the catch swallows it with every stage-2 field still at its
initial value. -/
def successAssembly (sources_used : List KnowledgeSource) (parsed : JsonValue)
    (stage2 : Stage2Outcome) : AnalyzeTicketResult :=
  let solution := solutionOf parsed
  let s2 := match solution with
    | .str _ => runStage2 stage2
    | _ => ⟨.UNKNOWN, none, [], none⟩
  { solution := solution
    confidence_score := confidenceOf parsed
    new_knowledge_draft := draftOf parsed
    compliance_status := s2.compliance_status
    sources_used := sources_used
    recommended_resource := recResOf parsed
    qa_score := s2.qa_score
    red_flags := s2.red_flags
    coaching_tip := s2.coaching_tip
    error := none }

/-- The issue text fallback chain
`transcript || ticket?.Description || ticket?.Subject || "No description provided."`. -/
def issueTextOf (tickets : List TicketRow) (ticketId transcript : Str) : Str :=
  let ticket := tickets.find? (fun t => t.Ticket_Number == ticketId)
  orElseStr transcript (orElseStr ((ticket.bind (·.Description)).getD [])
    (orElseStr ((ticket.bind (·.Subject)).getD []) (("No description provided.").data)))

/-- The seed articles surfaced in `sources_used`: the scored search
results, or — on zero matches — the first five rows of the corpus. -/
def seedArticlesOf (tickets : List TicketRow) (articles : List KnowledgeArticleRow)
    (ticketId transcript : Str) : List KnowledgeArticleRow :=
  let searchTerms := extractSearchTerms (issueTextOf tickets ticketId transcript)
  let relevantArticles := searchKnowledgeArticles searchTerms articles 6
  if relevantArticles.length > 0 then relevantArticles else articles.take 5

/-- `analyzeTicket`: the full result assembly.  The corpora and the two
external call outcomes are parameters; everything else follows the
source.  The script search and the prompt strings (context blocks,
instructions) feed only the prompt text sent to the model and never
the returned result, so they are not replayed here. -/
def analyzeTicket (apiKey : Option Str) (tickets : List TicketRow)
    (articles : List KnowledgeArticleRow) (_scripts : List ScriptRow)
    (stage1 : CallResult) (stage2 : Stage2Outcome)
    (ticketId : Str) (transcript : Str)
    (learnedArticles : List LearnedArticle) : AnalyzeTicketResult :=
  match apiKey with
  | none => missingKeyResult
  | some key =>
    if key = [] then missingKeyResult
    else
      let sources_used := sourcesUsedOf learnedArticles
        (seedArticlesOf tickets articles ticketId transcript)
      match stage1 with
      | .fail msg => fatalResult msg
      | .ok rawText =>
        let text := jsTrim rawText
        let jsonStr := (braceSlice text).getD text
        match parseJsonSafe jsonStr with
        | none => fatalResult jsonSyntaxMsg
        | some parsed => successAssembly sources_used parsed stage2

/-! ### Dashboard state machine and persistence (the dashboard component) -/

/-- The kinds of learning-log events. -/
inductive EventType where
  | gap_detected : EventType
  | draft_proposed : EventType
  | approved : EventType
deriving DecidableEq

/-- An article published in this session. -/
structure PublishedArticle where
  id : Str
  title : Str
  body : Str
  publishedAt : Nat
  ticketId : Str
deriving DecidableEq

/-- A learning-log entry. -/
structure LearningEvent where
  type : EventType
  ticketId : Str
  kbId : Option Str := none
  label : Str
  ts : Nat
deriving DecidableEq

/-- A session lineage row, in the `KB_Lineage` shape. -/
structure SessionLineageRow where
  KB_Article_ID : Str
  Source_Type : Str
  Source_ID : Str
  Evidence_Snippet : Option Str := none
deriving DecidableEq

/-- The three persisted lists. -/
structure SessionState where
  published : List PublishedArticle
  learning : List LearningEvent
  lineage : List SessionLineageRow
deriving DecidableEq

/-- The guard of the persistence effect: all three lists empty. -/
def sessionStateIsEmpty (s : SessionState) : Bool :=
  s.published.isEmpty && s.learning.isEmpty && s.lineage.isEmpty

/-- One run of the persistence effect after the in-memory state became
`mem`: if all three lists are empty nothing is written, otherwise the
serialised in-memory state replaces the stored value. -/
def persistStep (store : Option SessionState) (mem : SessionState) : Option SessionState :=
  if sessionStateIsEmpty mem then store else some mem

/-- The stored value after a sequence of in-memory states, each followed
by its persistence effect. -/
def runPersist (store : Option SessionState) (ms : List SessionState) : Option SessionState :=
  ms.foldl persistStep store

/-- The hydrated shape: three arrays of (unvalidated) JSON elements —
the source casts the parsed arrays without inspecting their elements. -/
structure HydratedState where
  published : List JsonValue
  learning : List JsonValue
  lineage : List JsonValue

/-- The hydration default. -/
def emptyHydrated : HydratedState := ⟨[], [], []⟩

/-- `Array.isArray(x) ? x : []` on a possibly-absent field. -/
def asArray : Option JsonValue → List JsonValue
  | some (.arr xs) => xs
  | _ => []

/-- `loadPersistedState`: absent or empty raw value, a parse failure
(the thrown exception is caught), or missing/non-array fields all
degrade to empty lists. -/
def loadPersistedState (raw : Option Str) : HydratedState :=
  match raw with
  | none => emptyHydrated
  | some s =>
    if s = [] then emptyHydrated
    else
      match jsonParse s with
      | none => emptyHydrated
      | some data =>
        { published := asArray (jlookup data (("published").data))
          learning := asArray (jlookup data (("learning").data))
          lineage := asArray (jlookup data (("lineage").data)) }

/-! ### Draft title/body extraction and publish (handleApprovePublish) -/

/-- The title marker, lowercased (the regexps carry the `i` flag). -/
def titleMarker : Str := ("title:").data

/-- The body marker, lowercased. -/
def bodyMarker : Str := ("body:").data

/-- Case-insensitive prefix test against an already-lowercase marker. -/
def ciLeadsWith (marker s : Str) : Bool :=
  match marker with
  | [] => true
  | a :: as =>
    match s with
    | [] => false
    | b :: bs => a == Char.toLower b && ciLeadsWith as bs

/-- The rest of the current line. -/
def takeLine (s : Str) : Str := s.takeWhile (fun c => !(c == '\n'))

/-- A character the dot of a JavaScript regexp (without the `s` flag)
matches: anything but a line terminator — line feed, carriage return,
U+2028, U+2029. -/
def isDotChar (c : Char) : Bool :=
  !(c == '\n' || c == '\r' || c == '\u2028' || c == '\u2029')

/-- The sub-pattern `(.+?)(?:\n|$)` at text `s`: the lazy capture grows
one dot-matchable character at a time, so it can only close at the
first line terminator at or after `s`, or at the end of the input.  The
match succeeds exactly when that run is nonempty and is ended by a line
feed or by the end of the input, and the capture is the run. -/
def lazyCapture (s : Str) : Option Str :=
  if s.takeWhile isDotChar = [] then none
  else
    match s.drop (s.takeWhile isDotChar).length with
    | [] => some (s.takeWhile isDotChar)
    | c :: _ => if c == '\n' then some (s.takeWhile isDotChar) else none

/-- Backtracking of the greedy `\s*` before the capture: the engine
first consumes `k` whitespace characters and, on failure of the rest of
the pattern, gives one back and retries, down to none. -/
def titleAttemptGo (r : Str) : Nat → Option Str
  | 0 => lazyCapture r
  | Nat.succ k =>
    match lazyCapture (r.drop (Nat.succ k)) with
    | some cap => some cap
    | none => titleAttemptGo r k

/-- One attempt of `/Title:\s*(.+?)(?:\n|$)/i` at text `r` following a
marker occurrence: the greedy `\s*` starts at the maximal whitespace
run and backtracks one character at a time. -/
def titleAttempt (r : Str) : Option Str :=
  titleAttemptGo r (r.takeWhile isJsWs).length

/-- The full title match: the regexp engine scans left to right; at each
case-insensitive `Title:` occurrence it attempts the tail, moving on to
the next occurrence when the attempt fails. -/
def findTitleCapture : Str → Option Str
  | [] => none
  | c :: cs =>
    if ciLeadsWith titleMarker (c :: cs) then
      match titleAttempt ((c :: cs).drop titleMarker.length) with
      | some cap => some cap
      | none => findTitleCapture cs
    else findTitleCapture cs

/-- The text after the first case-insensitive occurrence of a marker. -/
def findMarkerRest (marker : Str) : Str → Option Str
  | [] => none
  | c :: cs =>
    if ciLeadsWith marker (c :: cs) then some ((c :: cs).drop marker.length)
    else findMarkerRest marker cs

/-- The published title: the trimmed capture of the title regexp, or
the fixed placeholder. -/
def titleOf (draft : Str) : Str :=
  match findTitleCapture draft with
  | some cap => jsTrim cap
  | none => ("New knowledge article").data

/-- The published body: `/Body:\s*([\s\S]*)/` captures everything after
the marker and its whitespace run, then the source trims it; with no
marker the whole draft is used verbatim. -/
def bodyOf (draft : Str) : Str :=
  match findMarkerRest bodyMarker draft with
  | some rest => jsTrim (rest.dropWhile isJsWs)
  | none => draft

/-- The claim's reading of the title rule, written from its words: the
text after the (first) case-insensitive `Title:` marker up to the end
of that line, trimmed; the fixed placeholder when the marker is absent. -/
def claimTitleOf (draft : Str) : Str :=
  match findMarkerRest titleMarker draft with
  | some rest => jsTrim (takeLine rest)
  | none => ("New knowledge article").data

/-- The new article identifier (`` `KB-${Date.now()}` ``). -/
def kbIdFor (now : Nat) : Str := ("KB-").data ++ (Nat.repr now).data

/-- `handleApprovePublish`: guarded on a truthy draft and a selected
ticket, it extracts title and body, allocates the id, and appends the
article, the `approved` event and the lineage row; the pending draft is
cleared.  The three `Date.now()` reads of one invocation are modelled
as the single instant `now`. -/
def handleApprovePublish (newKnowledgeDraft : Option Str)
    (selectedTicketNumber : Option Str) (now : Nat)
    (st : SessionState) : SessionState × Option Str :=
  match newKnowledgeDraft, selectedTicketNumber with
  | some draft, some tn =>
    if draft = [] then (st, newKnowledgeDraft)
    else
      let ticketId := tn
      let title := titleOf draft
      let bodyFull := bodyOf draft
      let kbId := kbIdFor now
      ({ published := st.published ++
           [{ id := kbId, title := title, body := bodyFull,
              publishedAt := now, ticketId := ticketId }]
         learning := st.learning ++
           [{ type := .approved, ticketId := ticketId, kbId := some kbId,
              label := ("Article approved & published").data, ts := now }]
         lineage := st.lineage ++
           [{ KB_Article_ID := kbId, Source_Type := ("Ticket").data,
              Source_ID := ticketId, Evidence_Snippet := some (bodyFull.take 200) }] },
       none)
  | _, _ => (st, newKnowledgeDraft)

/-- The family of corrupted JSON texts of claim C4: `Unesc inStr raw t`
holds when `raw` is obtained from the text `t` by replacing, inside
string literals only, some of the escape sequences for line feed,
carriage return and tab by the corresponding raw control byte; all
other characters (including escape sequences, which pass through
verbatim) coincide.  The Boolean tracks whether the position is inside
a string literal, matching the scanner of `parseJsonSafe`. -/
inductive Unesc : Bool → Str → Str → Prop where
  | nil : Unesc false [] []
  | outChar {c : Char} {cs t : Str} : c ≠ '"' → c ≠ '\\' →
      Unesc false cs t → Unesc false (c :: cs) (c :: t)
  | openQ {cs t : Str} : Unesc true cs t → Unesc false ('"' :: cs) ('"' :: t)
  | closeQ {cs t : Str} : Unesc false cs t → Unesc true ('"' :: cs) ('"' :: t)
  | inChar {c : Char} {cs t : Str} : c ≠ '"' → c ≠ '\\' → 32 ≤ c.toNat →
      Unesc true cs t → Unesc true (c :: cs) (c :: t)
  | esc {c : Char} {cs t : Str} : Unesc true cs t →
      Unesc true ('\\' :: c :: cs) ('\\' :: c :: t)
  | rawNl {cs t : Str} : Unesc true cs t → Unesc true ('\n' :: cs) ('\\' :: 'n' :: t)
  | rawCr {cs t : Str} : Unesc true cs t → Unesc true ('\r' :: cs) ('\\' :: 'r' :: t)
  | rawTab {cs t : Str} : Unesc true cs t → Unesc true ('\t' :: cs) ('\\' :: 't' :: t)

/-! ## Theorems -/

/-- The rewrite pass of `parseJsonSafe` restores the correctly escaped
original of any text corrupted only by raw `\n`/`\r`/`\t` bytes inside
string literals. -/
theorem fixGo_of_unesc {b : Bool} {raw t : Str} (h : Unesc b raw t) :
    fixGo b false raw = t := by
  induction h with
  | nil => rfl
  | outChar h1 h2 _ ih => simp [fixGo, h1, h2, ih]
  | openQ _ ih => simp [fixGo, ih]
  | closeQ _ ih => simp [fixGo, ih]
  | inChar h1 h2 h3 _ ih =>
    have h4 := Nat.not_le.mpr h3
    simp [fixGo, h1, h2, h4, ih]
  | esc _ ih => simp [fixGo, ih]
  | rawNl _ ih => simp [fixGo, ih]
  | rawCr _ ih => simp [fixGo, ih]
  | rawTab _ ih => simp [fixGo, ih]

/-- Claim C4: a strictly valid JSON string parses through `parseJsonSafe`
exactly as through the strict parse; and a JSON text whose only defect
is raw control bytes (line feed, carriage return, tab) inside quoted
string literals is rewritten to their escaped forms — escape sequences
passing through verbatim — and parses to the same logical value as the
correctly escaped original. -/
theorem parseJsonSafe_correct :
    (∀ (raw : Str) (v : JsonValue), jsonParse raw = some v → parseJsonSafe raw = some v) ∧
    (∀ (raw t : Str) (v : JsonValue), Unesc false raw t → jsonParse raw = none →
      jsonParse t = some v → parseJsonSafe raw = some v) := by
  constructor
  · intro raw v h
    unfold parseJsonSafe
    rw [h]
  · intro raw t v hu hraw ht
    unfold parseJsonSafe
    rw [hraw]
    unfold fixControlChars
    rw [fixGo_of_unesc hu]
    exact ht

/-- Witness for claim C4 at the concrete corrupted text
`{"a":"x<LF>y"}` (a raw line feed inside the string literal) against
its escaped original `{"a":"x\ny"}`. -/
theorem parseJsonSafe_correct_witness :
    parseJsonSafe (("\x7b\"a\":true\x7d").data) = some (.obj [(('a' :: []), .bool true)]) ∧
    parseJsonSafe (['\x7b', '"', 'a', '"', ':', '"', 'x', '\n', 'y', '"', '\x7d']) =
      some (.obj [(('a' :: []), .str ['x', '\n', 'y'])]) := by
  constructor
  · exact parseJsonSafe_correct.1 _ _ (by rfl)
  · refine parseJsonSafe_correct.2 _
      (['\x7b', '"', 'a', '"', ':', '"', 'x', '\\', 'n', 'y', '"', '\x7d']) _ ?_ (by rfl) (by rfl)
    exact .outChar (by decide) (by decide) (.openQ (.inChar (by decide) (by decide) (by decide)
      (.closeQ (.outChar (by decide) (by decide) (.openQ (.inChar (by decide) (by decide)
        (by decide) (.rawNl (.inChar (by decide) (by decide) (by decide)
          (.closeQ (.outChar (by decide) (by decide) .nil))))))))))

/-- Claim C2: the persistence effect never overwrites a non-empty stored
session state with an all-empty one — after any further sequence of
transitions the store still holds a non-empty state — and a transition
that appends at least one article, event or lineage record writes the
new in-memory state to the store verbatim. -/
theorem persistence_safety :
    (∀ (store : Option SessionState) (s : SessionState) (ms : List SessionState),
      store = some s → sessionStateIsEmpty s = false →
      ∃ s2, runPersist store ms = some s2 ∧ sessionStateIsEmpty s2 = false) ∧
    (∀ (store : Option SessionState) (prev mem : SessionState),
      (prev.published.length < mem.published.length ∨
       prev.learning.length < mem.learning.length ∨
       prev.lineage.length < mem.lineage.length) →
      persistStep store mem = some mem) := by
  constructor
  · intro store s ms
    induction ms generalizing store s with
    | nil => intro h hne; exact ⟨s, h ▸ rfl, hne⟩
    | cons m ms ih =>
      intro h hne
      show ∃ s2, runPersist (persistStep store m) ms = some s2 ∧ _
      by_cases hm : sessionStateIsEmpty m = true
      · have : persistStep store m = some s := by
          unfold persistStep; rw [if_pos hm, h]
        exact ih _ _ this hne
      · have : persistStep store m = some m := by
          unfold persistStep; rw [if_neg hm]
        exact ih _ _ this (by simpa using hm)
  · intro store prev mem h
    have hne : sessionStateIsEmpty mem = false := by
      unfold sessionStateIsEmpty
      rcases h with h | h | h
      all_goals
        cases hmem : mem.published <;> cases hl : mem.learning <;>
          cases hg : mem.lineage <;>
        simp_all [List.isEmpty]
    unfold persistStep
    rw [if_neg (by simp [hne])]

/-- Witness for claim C2: a store holding one published article survives
an empty-state transition, and a transition appending one lineage row is
written through. -/
theorem persistence_safety_witness :
    (∃ s2, runPersist
        (some ⟨[⟨("KB-1").data, ("t").data, ("b").data, 1, ("T1").data⟩], [], []⟩)
        [⟨[], [], []⟩] = some s2 ∧ sessionStateIsEmpty s2 = false) ∧
    persistStep none ⟨[], [], [⟨("KB-1").data, ("Ticket").data, ("T1").data, none⟩]⟩ =
      some ⟨[], [], [⟨("KB-1").data, ("Ticket").data, ("T1").data, none⟩]⟩ := by
  constructor
  · exact persistence_safety.1 _ _ _ rfl (by decide)
  · exact persistence_safety.2 none ⟨[], [], []⟩ _ (by simp)

/-- Claim C10: hydration is total — an absent or empty raw value, a raw
value that is not valid JSON (the thrown parse error is caught), and a
parsed value whose `published`/`learning`/`lineage` fields are missing
or not arrays all produce a well-formed state, each defective field
degrading to the empty list. -/
theorem loadPersistedState_total :
    loadPersistedState none = emptyHydrated ∧
    loadPersistedState (some []) = emptyHydrated ∧
    (∀ s : Str, jsonParse s = none → loadPersistedState (some s) = emptyHydrated) ∧
    (∀ (s : Str) (data : JsonValue), jsonParse s = some data →
      loadPersistedState (some s) =
        { published := asArray (jlookup data (("published").data))
          learning := asArray (jlookup data (("learning").data))
          lineage := asArray (jlookup data (("lineage").data)) }) := by
  refine ⟨rfl, rfl, ?_, ?_⟩
  · intro s h
    by_cases hs : s = []
    · subst hs; rfl
    · simp [loadPersistedState, hs, h]
  · intro s data h
    have hs : ¬ s = [] := by
      intro he
      subst he
      have : jsonParse ([] : Str) = none := rfl
      rw [this] at h
      exact Option.noConfusion h
    simp [loadPersistedState, hs, h]

/-- Witness for claim C10 at a syntactically invalid raw value and at a
valid JSON object whose `published` field is a number and whose other
two fields are absent. -/
theorem loadPersistedState_total_witness :
    loadPersistedState (some (("oops").data)) = emptyHydrated ∧
    loadPersistedState (some (("\x7b\"published\":\"x\"\x7d").data)) = emptyHydrated := by
  constructor
  · exact loadPersistedState_total.2.2.1 _ (by rfl)
  · exact (loadPersistedState_total.2.2.2 _ (.obj [(("published").data, .str ('x' :: []))])
      (by rfl)).trans (by rfl)

/-- Claim C6: publishing a pending draft appends exactly one article,
one `approved` event carrying the freshly allocated id, and one lineage
row with source type `Ticket`, the ticket id, and the first 200
characters of the published body — and changes nothing else in the
three lists; the pending draft is cleared. -/
theorem handleApprovePublish_appends :
    ∀ (draft tn : Str) (now : Nat) (st : SessionState),
      draft ≠ [] →
      handleApprovePublish (some draft) (some tn) now st =
        ({ published := st.published ++
             [⟨kbIdFor now, titleOf draft, bodyOf draft, now, tn⟩]
           learning := st.learning ++
             [⟨.approved, tn, some (kbIdFor now),
               ("Article approved & published").data, now⟩]
           lineage := st.lineage ++
             [⟨kbIdFor now, ("Ticket").data, tn, some ((bodyOf draft).take 200)⟩] },
         none) := by
  intro draft tn now st h
  simp [handleApprovePublish, h]

/-- Witness for claim C6 at the specimen draft of the specification. -/
theorem handleApprovePublish_appends_witness :
    (("Title: VPN Setup\n\nBody: Do X then Y.").data ≠ ([] : Str)) ∧
    handleApprovePublish (some (("Title: VPN Setup\n\nBody: Do X then Y.").data))
        (some (("T9").data)) 42 ⟨[], [], []⟩ =
      ({ published := [⟨kbIdFor 42, titleOf (("Title: VPN Setup\n\nBody: Do X then Y.").data),
            bodyOf (("Title: VPN Setup\n\nBody: Do X then Y.").data), 42, ("T9").data⟩]
         learning := [⟨.approved, ("T9").data, some (kbIdFor 42),
            ("Article approved & published").data, 42⟩]
         lineage := [⟨kbIdFor 42, ("Ticket").data, ("T9").data,
            some ((bodyOf (("Title: VPN Setup\n\nBody: Do X then Y.").data)).take 200)⟩] },
       none) :=
  ⟨by decide, handleApprovePublish_appends _ _ 42 ⟨[], [], []⟩ (by decide)⟩

/-- Claim C7: each fatal path of `analyzeTicket` — missing (or empty)
configuration, stage-1 transport failure, unrecoverable stage-1 parse
failure — returns the fatal shape: a diagnostic solution string,
confidence 0, empty `sources_used` and `red_flags`, null draft,
resource, QA score and coaching tip, compliance UNKNOWN, and a
non-null error. -/
theorem analyzeTicket_fatal_shape :
    (∀ msg : Str,
      (fatalResult msg).solution = .str ((("Analysis failed: ").data) ++ msg) ∧
      (fatalResult msg).confidence_score = .val 0 ∧
      (fatalResult msg).new_knowledge_draft = none ∧
      (fatalResult msg).compliance_status = .UNKNOWN ∧
      (fatalResult msg).sources_used = [] ∧
      (fatalResult msg).recommended_resource = none ∧
      (fatalResult msg).qa_score = none ∧
      (fatalResult msg).red_flags = [] ∧
      (fatalResult msg).coaching_tip = none ∧
      (fatalResult msg).error = some msg) ∧
    (missingKeyResult.solution = .str (("Error: Gemini API key not configured.").data) ∧
      missingKeyResult.confidence_score = .val 0 ∧
      missingKeyResult.new_knowledge_draft = none ∧
      missingKeyResult.compliance_status = .UNKNOWN ∧
      missingKeyResult.sources_used = [] ∧
      missingKeyResult.recommended_resource = none ∧
      missingKeyResult.qa_score = none ∧
      missingKeyResult.red_flags = [] ∧
      missingKeyResult.coaching_tip = none ∧
      missingKeyResult.error = some (("Missing API key").data)) ∧
    (∀ tickets articles scripts stage1 stage2 tid tr learned,
      analyzeTicket none tickets articles scripts stage1 stage2 tid tr learned =
        missingKeyResult) ∧
    (∀ (key : Str) tickets articles scripts (msg : Str) stage2 tid tr learned,
      key ≠ [] →
      analyzeTicket (some key) tickets articles scripts (.fail msg) stage2 tid tr learned =
        fatalResult msg) ∧
    (∀ (key : Str) tickets articles scripts (rawText : Str) stage2 tid tr learned,
      key ≠ [] →
      parseJsonSafe ((braceSlice (jsTrim rawText)).getD (jsTrim rawText)) = none →
      analyzeTicket (some key) tickets articles scripts (.ok rawText) stage2 tid tr learned =
        fatalResult jsonSyntaxMsg) := by
  refine ⟨?_, ?_, ?_, ?_, ?_⟩
  · intro msg
    exact ⟨rfl, rfl, rfl, rfl, rfl, rfl, rfl, rfl, rfl, rfl⟩
  · exact ⟨rfl, rfl, rfl, rfl, rfl, rfl, rfl, rfl, rfl, rfl⟩
  · intro tickets articles scripts stage1 stage2 tid tr learned
    rfl
  · intro key tickets articles scripts msg stage2 tid tr learned hkey
    simp [analyzeTicket, hkey]
  · intro key tickets articles scripts rawText stage2 tid tr learned hkey hparse
    simp [analyzeTicket, hkey, hparse]

/-- Witness for claim C7: a concrete transport failure and a concrete
reply containing no parseable JSON object. -/
theorem analyzeTicket_fatal_shape_witness :
    (('k' :: [] : Str) ≠ []) ∧
    analyzeTicket (some ('k' :: [])) [] [] [] (.fail (('m') :: [])) .netFail
        (("T1").data) ('x' :: []) [] = fatalResult (('m') :: []) ∧
    parseJsonSafe ((braceSlice (jsTrim (("no json at all").data))).getD
      (jsTrim (("no json at all").data))) = none ∧
    analyzeTicket (some ('k' :: [])) [] [] [] (.ok (("no json at all").data)) .netFail
        (("T1").data) ('x' :: []) [] = fatalResult jsonSyntaxMsg :=
  ⟨by decide,
   analyzeTicket_fatal_shape.2.2.2.1 _ [] [] [] _ .netFail _ _ [] (by decide),
   by rfl,
   analyzeTicket_fatal_shape.2.2.2.2 _ [] [] [] _ .netFail _ _ [] (by decide) (by rfl)⟩

/-- Counterexample to claim C8 as stated: with a successful pair of
stage-2 replies whose QA text contains an unparseable brace block
(`parseJsonSafe` throws), `compliance_status` is SAFE — the compliance
verdict had already been assigned when the QA parse failed — not
UNKNOWN as the claim requires for every stage-2 parse failure. -/
theorem stage2_parse_failure_not_unknown :
    parseJsonSafe (("\x7b:\x7d").data) = none ∧
    (analyzeTicket (some ('k' :: [])) [] [] []
        (.ok (("\x7b\"solution\":\"ok\"\x7d").data))
        (.ok (("SAFE").data) (("\x7b:\x7d").data))
        (("T1").data) ('x' :: []) []).compliance_status = .SAFE ∧
    ComplianceStatus.SAFE ≠ ComplianceStatus.UNKNOWN := by
  exact ⟨by rfl, by rfl, by decide⟩

/-- After a successful stage-1 parse, `analyzeTicket` is the success
assembly over the parsed value and the stage-2 outcome. -/
theorem analyzeTicket_ok_eq (key : Str) (tickets : List TicketRow)
    (articles : List KnowledgeArticleRow) (scripts : List ScriptRow)
    (rawText : Str) (stage2 : Stage2Outcome) (tid tr : Str)
    (learned : List LearnedArticle) (parsed : JsonValue)
    (hkey : key ≠ [])
    (hparse : parseJsonSafe ((braceSlice (jsTrim rawText)).getD (jsTrim rawText)) =
      some parsed) :
    analyzeTicket (some key) tickets articles scripts (.ok rawText) stage2 tid tr learned =
      successAssembly (sourcesUsedOf learned (seedArticlesOf tickets articles tid tr))
        parsed stage2 := by
  simp only [analyzeTicket, hparse]
  rw [if_neg hkey]

/-- Claim C8 (amended): a stage-2 failure never fails the overall
analysis — the error field stays null and the stage-1 fields are the
same whatever the stage-2 outcome; on a network failure of the joint
stage-2 call every stage-2 field keeps its initial value (UNKNOWN /
null / empty); on a QA parse failure the QA fields keep their initial
values while `compliance_status` reflects the already-processed
compliance reply. -/
theorem analyzeTicket_stage2_isolation :
    ∀ (key : Str) (tickets : List TicketRow) (articles : List KnowledgeArticleRow)
      (scripts : List ScriptRow) (rawText : Str) (tid tr : Str)
      (learned : List LearnedArticle) (parsed : JsonValue),
      key ≠ [] →
      parseJsonSafe ((braceSlice (jsTrim rawText)).getD (jsTrim rawText)) = some parsed →
      (∀ o o2 : Stage2Outcome,
        (analyzeTicket (some key) tickets articles scripts (.ok rawText) o tid tr
            learned).solution =
          (analyzeTicket (some key) tickets articles scripts (.ok rawText) o2 tid tr
            learned).solution ∧
        (analyzeTicket (some key) tickets articles scripts (.ok rawText) o tid tr
            learned).confidence_score =
          (analyzeTicket (some key) tickets articles scripts (.ok rawText) o2 tid tr
            learned).confidence_score ∧
        (analyzeTicket (some key) tickets articles scripts (.ok rawText) o tid tr
            learned).new_knowledge_draft =
          (analyzeTicket (some key) tickets articles scripts (.ok rawText) o2 tid tr
            learned).new_knowledge_draft ∧
        (analyzeTicket (some key) tickets articles scripts (.ok rawText) o tid tr
            learned).recommended_resource =
          (analyzeTicket (some key) tickets articles scripts (.ok rawText) o2 tid tr
            learned).recommended_resource ∧
        (analyzeTicket (some key) tickets articles scripts (.ok rawText) o tid tr
            learned).sources_used =
          (analyzeTicket (some key) tickets articles scripts (.ok rawText) o2 tid tr
            learned).sources_used ∧
        (analyzeTicket (some key) tickets articles scripts (.ok rawText) o tid tr
            learned).error = none) ∧
      ((analyzeTicket (some key) tickets articles scripts (.ok rawText) .netFail tid tr
          learned).compliance_status = .UNKNOWN ∧
        (analyzeTicket (some key) tickets articles scripts (.ok rawText) .netFail tid tr
          learned).qa_score = none ∧
        (analyzeTicket (some key) tickets articles scripts (.ok rawText) .netFail tid tr
          learned).red_flags = [] ∧
        (analyzeTicket (some key) tickets articles scripts (.ok rawText) .netFail tid tr
          learned).coaching_tip = none) ∧
      (∀ (c q s : Str),
        solutionOf parsed = .str s →
        (∀ js, braceSlice (jsTrim q) = some js → parseJsonSafe js = none) →
        (analyzeTicket (some key) tickets articles scripts (.ok rawText) (.ok c q) tid tr
            learned).compliance_status =
          (if hasSub (("UNSAFE").data) (upperStr (jsTrim c)) then ComplianceStatus.UNSAFE
           else ComplianceStatus.SAFE) ∧
        (analyzeTicket (some key) tickets articles scripts (.ok rawText) (.ok c q) tid tr
            learned).qa_score = none ∧
        (analyzeTicket (some key) tickets articles scripts (.ok rawText) (.ok c q) tid tr
            learned).red_flags = [] ∧
        (analyzeTicket (some key) tickets articles scripts (.ok rawText) (.ok c q) tid tr
            learned).coaching_tip = none) := by
  intro key tickets articles scripts rawText tid tr learned parsed hkey hparse
  have he := fun o => analyzeTicket_ok_eq key tickets articles scripts rawText o tid tr
    learned parsed hkey hparse
  refine ⟨?_, ?_, ?_⟩
  · intro o o2
    rw [he o, he o2]
    exact ⟨rfl, rfl, rfl, rfl, rfl, rfl⟩
  · rw [he .netFail]
    cases hsol : solutionOf parsed <;> simp [successAssembly, runStage2, hsol]
  · intro c q s hsol hq
    rw [he (.ok c q)]
    rcases hbs : braceSlice (jsTrim q) with _ | js
    · simp [successAssembly, hsol, runStage2, hbs]
    · have hjs := hq js hbs
      simp [successAssembly, hsol, runStage2, hbs, hjs]

/-- Witness for the amended claim C8 at a concrete successful stage-1
reply, a SAFE compliance reply, and a QA reply whose brace block fails
to parse. -/
theorem analyzeTicket_stage2_isolation_witness :
    (('k' :: [] : Str) ≠ []) ∧
    parseJsonSafe ((braceSlice (jsTrim (("\x7b\"solution\":\"ok\"\x7d").data))).getD
        (jsTrim (("\x7b\"solution\":\"ok\"\x7d").data))) =
      some (.obj [(("solution").data, .str ('o' :: 'k' :: []))]) ∧
    (analyzeTicket (some ('k' :: [])) [] [] []
        (.ok (("\x7b\"solution\":\"ok\"\x7d").data)) .netFail
        (("T1").data) ('x' :: []) []).compliance_status = .UNKNOWN :=
  ⟨by decide, by rfl,
   ((analyzeTicket_stage2_isolation ('k' :: []) [] [] []
      (("\x7b\"solution\":\"ok\"\x7d").data) (("T1").data) ('x' :: []) []
      (.obj [(("solution").data, .str ('o' :: 'k' :: []))])
      (by decide) (by rfl)).2.1).1⟩

/-- Stripping a whitespace run is idempotent. -/
theorem dropWhile_dropWhile_same (p : Char → Bool) (l : Str) :
    (l.dropWhile p).dropWhile p = l.dropWhile p := by
  induction l with
  | nil => rfl
  | cons c cs ih =>
    by_cases h : p c = true
    · simp [List.dropWhile, h, ih]
    · simp [List.dropWhile, h]

theorem jsTrim_dropWhile (l : Str) : jsTrim (l.dropWhile isJsWs) = jsTrim l := by
  unfold jsTrim
  rw [dropWhile_dropWhile_same]

theorem drop_length_takeWhile (p : Char → Bool) (l : Str) :
    l.drop (l.takeWhile p).length = l.dropWhile p := by
  induction l with
  | nil => rfl
  | cons c cs ih =>
    by_cases h : p c = true
    · simp [List.takeWhile_cons, List.dropWhile_cons, h, ih]
    · simp [List.takeWhile_cons, List.dropWhile_cons, h]

theorem titleAttempt_of_lazy {r cap : Str}
    (h : lazyCapture (r.dropWhile isJsWs) = some cap) :
    titleAttempt r = some cap := by
  unfold titleAttempt
  rw [← drop_length_takeWhile isJsWs r] at h
  cases hW : (r.takeWhile isJsWs).length with
  | zero =>
    rw [hW] at h
    simpa [titleAttemptGo] using h
  | succ k =>
    rw [hW] at h
    simp [titleAttemptGo, h]

theorem lazyCapture_of_ok {s : Str}
    (hNe : s.takeWhile isDotChar ≠ [])
    (hEnd : s.drop (s.takeWhile isDotChar).length = [] ∨
      (s.drop (s.takeWhile isDotChar).length).head? = some '\n') :
    lazyCapture s = some (s.takeWhile isDotChar) := by
  unfold lazyCapture
  rw [if_neg hNe]
  cases hcase : s.drop (s.takeWhile isDotChar).length with
  | nil => rfl
  | cons c t =>
    rcases hEnd with h0 | h1
    · rw [hcase] at h0
      exact absurd h0 (List.cons_ne_nil c t)
    · rw [hcase] at h1
      have hc : c = '\n' := by simpa using h1
      subst hc
      rfl

theorem findTitleCapture_of_no_marker {d : Str}
    (h : findMarkerRest titleMarker d = none) : findTitleCapture d = none := by
  induction d with
  | nil => rfl
  | cons c cs ih =>
    by_cases hl : ciLeadsWith titleMarker (c :: cs) = true
    · rw [findMarkerRest, if_pos hl] at h
      exact Option.noConfusion h
    · rw [findMarkerRest, if_neg hl] at h
      rw [findTitleCapture, if_neg hl]
      exact ih h

theorem findTitleCapture_of_first {d r cap : Str}
    (h : findMarkerRest titleMarker d = some r)
    (hatt : titleAttempt r = some cap) : findTitleCapture d = some cap := by
  induction d with
  | nil => exact Option.noConfusion h
  | cons c cs ih =>
    by_cases hl : ciLeadsWith titleMarker (c :: cs) = true
    · rw [findMarkerRest, if_pos hl] at h
      rw [findTitleCapture, if_pos hl]
      cases h
      rw [hatt]
    · rw [findMarkerRest, if_neg hl] at h
      rw [findTitleCapture, if_neg hl]
      exact ih h

/-- Counterexample to claim C5 as stated: in the draft
`Title:<LF>VPN Setup` the text after the marker up to the end of that
line is empty, so the claim's rule yields the empty title; the code's
regexp skips the whitespace run across the line break and returns
`VPN Setup`. -/
theorem title_rule_counterexample :
    titleOf (("Title:\nVPN Setup").data) = ("VPN Setup").data ∧
    claimTitleOf (("Title:\nVPN Setup").data) = [] ∧
    titleOf (("Title:\nVPN Setup").data) ≠ claimTitleOf (("Title:\nVPN Setup").data) :=
  ⟨by decide, by decide, by decide⟩

/-- Claim C5 (amended): the publish action scans the draft left to
right for case-insensitive `Title:` markers, as the regexp
`/Title:\s*(.+?)(?:\n|$)/i` does.  At each occurrence the whitespace
run after the marker is greedily skipped — possibly across line
breaks — and the occurrence yields a title exactly when a nonempty run
of characters the dot can match (no line feed, carriage return, U+2028
or U+2029) follows and is ended by a line feed or by the end of the
draft; that run, trimmed, is the title.  A carriage return is a line
terminator the dot cannot match, so a title line ended by CRLF makes
the occurrence fail (backtracking into the whitespace run may still
succeed, capturing only whitespace and giving an empty title) and the
scan moves to the next occurrence; when no occurrence yields a title,
or there is no marker, the fixed placeholder title is used.  The body
is everything after the first case-insensitive `Body:` marker, trimmed;
with no marker the body is the entire draft text verbatim.  The
specimen drafts behave accordingly. -/
theorem title_body_extraction :
    (∀ d : Str, findMarkerRest titleMarker d = none →
      titleOf d = ("New knowledge article").data) ∧
    (∀ d r s cap : Str, findMarkerRest titleMarker d = some r →
      s = r.dropWhile isJsWs → cap = s.takeWhile isDotChar → cap ≠ [] →
      (s.drop cap.length = [] ∨ (s.drop cap.length).head? = some '\n') →
      titleOf d = jsTrim cap) ∧
    (∀ d : Str, findMarkerRest bodyMarker d = none → bodyOf d = d) ∧
    (∀ d r : Str, findMarkerRest bodyMarker d = some r → bodyOf d = jsTrim r) ∧
    (titleOf (("Title: VPN Setup\n\nBody: Do X then Y.").data) = ("VPN Setup").data ∧
      bodyOf (("Title: VPN Setup\n\nBody: Do X then Y.").data) = ("Do X then Y.").data) ∧
    (titleOf (("Title: abc\r\ndef").data) = ("New knowledge article").data ∧
      titleOf (("Title: abc\r\nTitle: real\nmore").data) = ("real").data ∧
      titleOf (("Title: \nabc\r").data) = []) ∧
    (titleOf (("no markers here").data) = ("New knowledge article").data ∧
      bodyOf (("no markers here").data) = ("no markers here").data) := by
  refine ⟨?_, ?_, ?_, ?_, ⟨by decide, by decide⟩,
    ⟨by decide, by decide, by decide⟩, ⟨by decide, by decide⟩⟩
  · intro d h
    unfold titleOf
    rw [findTitleCapture_of_no_marker h]
  · intro d r s cap h hs hcap hNe hEnd
    subst hs
    subst hcap
    have hatt := titleAttempt_of_lazy (lazyCapture_of_ok hNe hEnd)
    unfold titleOf
    rw [findTitleCapture_of_first h hatt]
  · intro d h
    unfold bodyOf
    rw [h]
  · intro d r h
    unfold bodyOf
    rw [h]
    exact jsTrim_dropWhile r

/-- Witness for the amended claim C5 at the draft whose whitespace skip
crosses the line break, and at a body specimen. -/
theorem title_body_extraction_witness :
    (findMarkerRest titleMarker (("Title:\nVPN Setup").data) = some (("\nVPN Setup").data)) ∧
    titleOf (("Title:\nVPN Setup").data) = jsTrim (("VPN Setup").data) ∧
    (findMarkerRest bodyMarker (("a Body:  Do X ").data) = some (("  Do X ").data)) ∧
    bodyOf (("a Body:  Do X ").data) = jsTrim (("  Do X ").data) :=
  ⟨by decide,
   title_body_extraction.2.1 (("Title:\nVPN Setup").data) (("\nVPN Setup").data)
     (("VPN Setup").data) (("VPN Setup").data)
     (by decide) (by decide) (by decide) (by decide) (Or.inl (by decide)),
   by decide,
   title_body_extraction.2.2.2.1 (("a Body:  Do X ").data) (("  Do X ").data) (by decide)⟩

/-- Claim C1, the code at the failing input: with `confidence_score`
missing from the stage-1 reply, the returned confidence is NaN —
`Number(undefined)` is NaN, the `?? 0.5` default (written to supply
0.5, as the specification says) never fires because NaN is not
nullish, and `Math.min`/`Math.max` propagate NaN — so the field is
neither 0.5 nor in [0, 1]. -/
theorem confidence_nan_on_missing_score :
    (analyzeTicket (some ('k' :: [])) [] [] []
        (.ok (("\x7b\"solution\":\"ok\"\x7d").data)) .netFail
        (("T1").data) ('x' :: []) []).confidence_score = JsNum.nan ∧
    (∀ q : ℚ, JsNum.nan ≠ JsNum.val q) := by
  refine ⟨by rfl, fun q h => JsNum.noConfusion h⟩

theorem toNat_ofNat_lt {n : Nat} (h : n < 55296) : (Char.ofNat n).toNat = n := by
  unfold Char.ofNat
  rw [dif_pos (Or.inl h)]
  rfl

theorem toLower_eq_self_of_not_upper {d : Char}
    (h : ¬(d.toNat ≥ 65 ∧ d.toNat ≤ 90)) : Char.toLower d = d := by
  simp only [Char.toLower]
  rw [if_neg h]

theorem toLower_not_upper (c : Char) :
    ¬((Char.toLower c).toNat ≥ 65 ∧ (Char.toLower c).toNat ≤ 90) := by
  simp only [Char.toLower]
  by_cases h : c.toNat ≥ 65 ∧ c.toNat ≤ 90
  · rw [if_pos h, toNat_ofNat_lt (by omega)]
    omega
  · rw [if_neg h]
    exact h

theorem toLower_idem (c : Char) :
    Char.toLower (Char.toLower c) = Char.toLower c :=
  toLower_eq_self_of_not_upper (toLower_not_upper c)

theorem mem_dedupFirstGo [DecidableEq α] (seen l : List α) (x : α) :
    x ∈ dedupFirstGo seen l ↔ x ∈ l ∧ x ∉ seen := by
  induction l generalizing seen with
  | nil => simp [dedupFirstGo]
  | cons a l ih =>
    by_cases h : a ∈ seen
    · rw [dedupFirstGo, if_pos h, ih]
      constructor
      · rintro ⟨h1, h2⟩
        exact ⟨List.mem_cons_of_mem _ h1, h2⟩
      · rintro ⟨h1, h2⟩
        rcases List.mem_cons.mp h1 with rfl | h3
        · exact absurd h h2
        · exact ⟨h3, h2⟩
    · rw [dedupFirstGo, if_neg h]
      constructor
      · intro h1
        rcases List.mem_cons.mp h1 with rfl | h3
        · exact ⟨List.mem_cons_self _ _, h⟩
        · have := (ih (a :: seen)).mp h3
          exact ⟨List.mem_cons_of_mem _ this.1,
            fun hx => this.2 (List.mem_cons_of_mem _ hx)⟩
      · rintro ⟨h1, h2⟩
        rcases List.mem_cons.mp h1 with rfl | h3
        · exact List.mem_cons_self _ _
        · by_cases hxa : x = a
          · subst hxa
            exact List.mem_cons_self _ _
          · refine List.mem_cons_of_mem _ ((ih (a :: seen)).mpr ⟨h3, ?_⟩)
            intro hx
            rcases List.mem_cons.mp hx with h4 | h4
            · exact hxa h4
            · exact h2 h4

theorem nodup_dedupFirstGo [DecidableEq α] (seen l : List α) :
    (dedupFirstGo seen l).Nodup := by
  induction l generalizing seen with
  | nil => exact List.nodup_nil
  | cons a l ih =>
    by_cases h : a ∈ seen
    · rw [dedupFirstGo, if_pos h]
      exact ih seen
    · rw [dedupFirstGo, if_neg h]
      rw [List.nodup_cons]
      refine ⟨fun hmem => ?_, ih (a :: seen)⟩
      exact ((mem_dedupFirstGo _ _ _).mp hmem).2 (List.mem_cons_self a seen)

theorem dedupFirstGo_eq_self [DecidableEq α] (seen l : List α)
    (hl : l.Nodup) (hd : ∀ a ∈ l, a ∉ seen) : dedupFirstGo seen l = l := by
  induction l generalizing seen with
  | nil => rfl
  | cons a l ih =>
    rw [dedupFirstGo, if_neg (hd a (List.mem_cons_self _ _))]
    rw [List.nodup_cons] at hl
    congr 1
    refine ih _ hl.2 ?_
    intro b hb hbmem
    rcases List.mem_cons.mp hbmem with h4 | h4
    · exact hl.1 (h4 ▸ hb)
    · exact hd b (List.mem_cons_of_mem _ hb) h4

theorem wordsByGo_fuel_eq (p : Char → Bool) :
    ∀ (n m : Nat) (s : Str), s.length ≤ n → s.length ≤ m →
      wordsByGo p n s = wordsByGo p m s := by
  intro n
  induction n with
  | zero =>
    intro m s hn _
    have hnil : s = [] := List.length_eq_zero.mp (Nat.le_zero.mp hn)
    subst hnil
    cases m <;> rfl
  | succ n ih =>
    intro m s hn hm
    cases s with
    | nil => cases m <;> rfl
    | cons c cs =>
      cases m with
      | zero => simp at hm
      | succ m =>
        show wordsByGo p (Nat.succ n) (c :: cs) = wordsByGo p (Nat.succ m) (c :: cs)
        rw [wordsByGo, wordsByGo]
        by_cases hp : p c = true
        · rw [if_pos hp, if_pos hp]
          exact ih m cs (by simpa using hn) (by simpa using hm)
        · rw [if_neg hp, if_neg hp]
          congr 1
          exact ih m _
            (le_trans (List.dropWhile_sublist _).length_le (by simpa using hn))
            (le_trans (List.dropWhile_sublist _).length_le (by simpa using hm))

theorem wordsBy_nil (p : Char → Bool) : wordsBy p [] = [] := rfl

theorem wordsBy_cons (p : Char → Bool) (c : Char) (cs : Str) :
    wordsBy p (c :: cs) =
      if p c then wordsBy p cs
      else (c :: cs.takeWhile (fun x => !p x)) ::
        wordsBy p (cs.dropWhile (fun x => !p x)) := by
  show wordsByGo p (c :: cs).length (c :: cs) = _
  rw [List.length_cons]
  show wordsByGo p (Nat.succ cs.length) (c :: cs) = _
  rw [wordsByGo]
  by_cases hp : p c = true
  · rw [if_pos hp, if_pos hp]
    rfl
  · rw [if_neg hp, if_neg hp]
    rw [wordsByGo_fuel_eq p cs.length (cs.dropWhile (fun x => !p x)).length _
      (List.dropWhile_sublist _).length_le le_rfl]
    rfl

theorem mem_wordsBy {p : Char → Bool} :
    ∀ {s w : Str}, w ∈ wordsBy p s → w ≠ [] ∧ ∀ c ∈ w, p c = false ∧ c ∈ s := by
  suffices H : ∀ (n : Nat) (s : Str), s.length ≤ n → ∀ w, w ∈ wordsBy p s →
      w ≠ [] ∧ ∀ c ∈ w, p c = false ∧ c ∈ s by
    intro s w h
    exact H s.length s le_rfl w h
  intro n
  induction n with
  | zero =>
    intro s hs w h
    rw [Nat.le_zero, List.length_eq_zero] at hs
    subst hs
    simp [wordsBy_nil] at h
  | succ n ih =>
    intro s hs w h
    match s with
    | [] => simp [wordsBy_nil] at h
    | c :: cs =>
      rw [wordsBy_cons] at h
      by_cases hp : p c = true
      · rw [if_pos hp] at h
        obtain ⟨hne, hall⟩ := ih cs (Nat.le_of_succ_le_succ hs) w h
        exact ⟨hne, fun x hx => ⟨(hall x hx).1, List.mem_cons_of_mem _ (hall x hx).2⟩⟩
      · rw [if_neg hp] at h
        have hpc : p c = false := by
          cases hc2 : p c
          · rfl
          · exact absurd hc2 hp
        rcases List.mem_cons.mp h with rfl | h2
        · refine ⟨by simp, ?_⟩
          intro x hx
          rcases List.mem_cons.mp hx with rfl | hx2
          · exact ⟨hpc, List.mem_cons_self _ _⟩
          · have h3 := List.mem_takeWhile_imp hx2
            have h4 : x ∈ cs := (List.takeWhile_sublist _).subset hx2
            refine ⟨?_, List.mem_cons_of_mem _ h4⟩
            simpa using h3
        · have hd : (cs.dropWhile (fun x => !p x)).length ≤ n :=
            le_trans (List.dropWhile_sublist _).length_le (Nat.le_of_succ_le_succ hs)
          obtain ⟨hne, hall⟩ := ih _ hd w h2
          exact ⟨hne, fun x hx => ⟨(hall x hx).1,
            List.mem_cons_of_mem _ ((List.dropWhile_sublist _).subset (hall x hx).2)⟩⟩

theorem takeWhile_eq_self_of {q : Char → Bool} {l : Str}
    (h : ∀ c ∈ l, q c = true) : l.takeWhile q = l := by
  induction l with
  | nil => rfl
  | cons c cs ih =>
    rw [List.takeWhile_cons, if_pos (h c (List.mem_cons_self _ _))]
    rw [ih (fun x hx => h x (List.mem_cons_of_mem _ hx))]

theorem dropWhile_eq_nil_of {q : Char → Bool} {l : Str}
    (h : ∀ c ∈ l, q c = true) : l.dropWhile q = [] := by
  induction l with
  | nil => rfl
  | cons c cs ih =>
    rw [List.dropWhile_cons, if_pos (h c (List.mem_cons_self _ _))]
    exact ih (fun x hx => h x (List.mem_cons_of_mem _ hx))

theorem wordsBy_all_word {p : Char → Bool} {w : Str} (hne : w ≠ [])
    (hall : ∀ c ∈ w, p c = false) : wordsBy p w = [w] := by
  cases w with
  | nil => exact absurd rfl hne
  | cons c cs =>
    rw [wordsBy_cons, if_neg (by simp [hall c (List.mem_cons_self _ _)])]
    rw [takeWhile_eq_self_of (l := cs)
      (fun x hx => by simp [hall x (List.mem_cons_of_mem _ hx)])]
    rw [dropWhile_eq_nil_of (l := cs)
      (fun x hx => by simp [hall x (List.mem_cons_of_mem _ hx)])]
    rw [wordsBy_nil]

theorem wordsBy_word_sep {p : Char → Bool} {w : Str} {sep : Char} {r : Str}
    (hne : w ≠ []) (hall : ∀ c ∈ w, p c = false) (hsep : p sep = true) :
    wordsBy p (w ++ sep :: r) = w :: wordsBy p r := by
  cases w with
  | nil => exact absurd rfl hne
  | cons c cs =>
    rw [List.cons_append, wordsBy_cons,
      if_neg (by simp [hall c (List.mem_cons_self _ _)])]
    rw [List.takeWhile_append_of_pos
      (fun x hx => by simp [hall x (List.mem_cons_of_mem _ hx)])]
    rw [List.dropWhile_append_of_pos
      (fun x hx => by simp [hall x (List.mem_cons_of_mem _ hx)])]
    rw [List.takeWhile_cons, if_neg (by simp [hsep])]
    rw [List.dropWhile_cons, if_neg (by simp [hsep])]
    rw [List.append_nil, wordsBy_cons, if_pos hsep]

theorem wordsBy_joinSpace {p : Char → Bool} (hsep : p ' ' = true) (L : List Str)
    (hL : ∀ w ∈ L, w ≠ [] ∧ ∀ c ∈ w, p c = false) :
    wordsBy p (joinSpace L) = L := by
  induction L with
  | nil => rfl
  | cons w L ih =>
    cases L with
    | nil =>
      have h := hL w (List.mem_cons_self _ _)
      exact wordsBy_all_word h.1 h.2
    | cons w2 L2 =>
      rw [joinSpace]
      have h := hL w (List.mem_cons_self _ _)
      rw [wordsBy_word_sep h.1 h.2 hsep]
      rw [ih (fun x hx => hL x (List.mem_cons_of_mem _ hx))]

theorem map_id_of_mem {f : α → α} {l : List α} (h : ∀ c ∈ l, f c = c) :
    l.map f = l := by
  induction l with
  | nil => rfl
  | cons c cs ih =>
    rw [List.map_cons, h c (List.mem_cons_self _ _),
      ih (fun x hx => h x (List.mem_cons_of_mem _ hx))]

theorem mem_joinSpace {L : List Str} {c : Char} (h : c ∈ joinSpace L) :
    c = ' ' ∨ ∃ w ∈ L, c ∈ w := by
  induction L with
  | nil => simp [joinSpace] at h
  | cons w L ih =>
    cases L with
    | nil => exact Or.inr ⟨w, List.mem_cons_self _ _, h⟩
    | cons w2 L2 =>
      rw [joinSpace] at h
      rcases List.mem_append.mp h with h1 | h2
      · exact Or.inr ⟨w, List.mem_cons_self _ _, h1⟩
      · rcases List.mem_cons.mp h2 with rfl | h3
        · exact Or.inl rfl
        · rcases ih h3 with h4 | ⟨w3, hw3, hc⟩
          · exact Or.inl h4
          · exact Or.inr ⟨w3, List.mem_cons_of_mem _ hw3, hc⟩

theorem extract_mem_props {text w : Str} (h : w ∈ extractSearchTerms text) :
    w ≠ [] ∧ (∀ c ∈ w, isWordChar c = true ∧ Char.toLower c = c ∧ isJsWs c = false) ∧
      1 < w.length ∧ w ∉ stopwords := by
  simp only [extractSearchTerms, dedupFirst] at h
  have h1 := ((mem_dedupFirstGo _ _ _).mp h).1
  have h2 := List.mem_filter.mp h1
  have h3 := mem_wordsBy h2.1
  have hkeep := h2.2
  rw [keepTerm, Bool.and_eq_true, decide_eq_true_iff, Bool.not_eq_true',
    decide_eq_false_iff_not] at hkeep
  refine ⟨h3.1, ?_, hkeep.1, hkeep.2⟩
  intro c hc
  have h4 := h3.2 c hc
  have hws := h4.1
  rcases List.mem_map.mp h4.2 with ⟨x, hx, hrepl⟩
  rcases List.mem_map.mp hx with ⟨y, _, rfl⟩
  by_cases hgood : (isWordChar (Char.toLower y) || isJsWs (Char.toLower y)) = true
  · rw [replaceNonWord, if_neg (by simp [hgood])] at hrepl
    subst hrepl
    rcases Bool.or_eq_true _ _ |>.mp hgood with hw | hjs
    · exact ⟨hw, toLower_idem y, hws⟩
    · exact absurd hjs (by simp [hws])
  · rw [replaceNonWord, if_pos (by simp [hgood])] at hrepl
    subst hrepl
    exact absurd hws (by decide)

/-- Claim C9: `extractSearchTerms` of the empty string is empty; the
output never contains duplicates, tokens of length at most 1, or
stopwords; and the extractor is idempotent on its own space-joined
output, returning the same terms in the same order. -/
theorem extractSearchTerms_spec :
    extractSearchTerms [] = [] ∧
    (∀ text : Str, (extractSearchTerms text).Nodup) ∧
    (∀ text w : Str, w ∈ extractSearchTerms text → 1 < w.length ∧ w ∉ stopwords) ∧
    (∀ text : Str,
      extractSearchTerms (joinSpace (extractSearchTerms text)) =
        extractSearchTerms text) := by
  refine ⟨rfl, ?_, ?_, ?_⟩
  · intro text
    simp only [extractSearchTerms, dedupFirst]
    exact nodup_dedupFirstGo _ _
  · intro text w h
    exact ⟨(extract_mem_props h).2.2.1, (extract_mem_props h).2.2.2⟩
  · intro text
    have hprops : ∀ w ∈ extractSearchTerms text, w ≠ [] ∧
        ∀ c ∈ w, isWordChar c = true ∧ Char.toLower c = c ∧ isJsWs c = false :=
      fun w hw => ⟨(extract_mem_props hw).1, (extract_mem_props hw).2.1⟩
    have hlower : lowerStr (joinSpace (extractSearchTerms text)) =
        joinSpace (extractSearchTerms text) := by
      refine map_id_of_mem ?_
      intro c hc
      rcases mem_joinSpace hc with rfl | ⟨w, hw, hcw⟩
      · decide
      · exact ((hprops w hw).2 c hcw).2.1
    have hrepl : (joinSpace (extractSearchTerms text)).map replaceNonWord =
        joinSpace (extractSearchTerms text) := by
      refine map_id_of_mem ?_
      intro c hc
      rcases mem_joinSpace hc with rfl | ⟨w, hw, hcw⟩
      · decide
      · have := (hprops w hw).2 c hcw
        rw [replaceNonWord, if_neg (by simp [this.1])]
    have hwords : wordsBy isJsWs (joinSpace (extractSearchTerms text)) =
        extractSearchTerms text := by
      refine wordsBy_joinSpace (by decide) _ ?_
      intro w hw
      exact ⟨(hprops w hw).1, fun c hc => ((hprops w hw).2 c hc).2.2⟩
    have hfilter : (extractSearchTerms text).filter keepTerm =
        extractSearchTerms text := by
      refine List.filter_eq_self.mpr ?_
      intro w hw
      have h := extract_mem_props hw
      rw [keepTerm, Bool.and_eq_true, decide_eq_true_iff, Bool.not_eq_true',
        decide_eq_false_iff_not]
      exact ⟨h.2.2.1, h.2.2.2⟩
    have hnodup : (extractSearchTerms text).Nodup := by
      simp only [extractSearchTerms, dedupFirst]
      exact nodup_dedupFirstGo _ _
    conv_lhs => rw [extractSearchTerms]
    rw [show lowerStr (joinSpace (extractSearchTerms text)) =
      joinSpace (extractSearchTerms text) from hlower]
    rw [hrepl, hwords, hfilter, dedupFirst]
    exact dedupFirstGo_eq_self _ _ hnodup (by simp)

set_option maxRecDepth 8000 in
/-- Witness for claim C9 at a concrete text with punctuation, case,
stopwords and duplicates. -/
theorem extractSearchTerms_spec_witness :
    (("password").data ∈ extractSearchTerms (("The passWord—reset, reset a I x").data)) ∧
    1 < (("password").data : Str).length ∧ ("password").data ∉ stopwords :=
  ⟨by decide, extractSearchTerms_spec.2.2.1 (("The passWord—reset, reset a I x").data)
    (("password").data) (by decide)⟩

theorem countP_eq_distinctScore (terms : List Str) (hay : Str) (h : terms.Nodup) :
    scoreOf terms hay = distinctScore terms hay := by
  unfold scoreOf distinctScore
  rw [List.dedup_eq_self.mpr (h.filter _)]
  exact List.countP_eq_length_filter _ _

theorem orderedInsert_eq_cons {r : α → α → Prop} [DecidableRel r] {x : α} {l : List α}
    (h : ∀ y ∈ l, r x y) : l.orderedInsert r x = x :: l := by
  cases l with
  | nil => rfl
  | cons b l => exact List.orderedInsert_of_le _ _ (h b (List.mem_cons_self _ _))

theorem filter_orderedInsert {p : α × ℕ → Bool} {x : α × ℕ} {l : List (α × ℕ)}
    (hs : l.Sorted (scoreDesc (α := α))) :
    (l.orderedInsert scoreDesc x).filter p =
      if p x then (l.filter p).orderedInsert scoreDesc x else l.filter p := by
  induction l with
  | nil =>
    cases hp : p x <;> simp [List.orderedInsert, List.filter, hp]
  | cons b l ih =>
    by_cases hr : scoreDesc x b
    · rw [List.orderedInsert_of_le _ _ hr]
      have hall : ∀ y ∈ (b :: l).filter p, scoreDesc x y := by
        intro y hy
        have hyl := (List.mem_filter.mp hy).1
        rcases List.mem_cons.mp hyl with h4 | hyl2
        · exact h4 ▸ hr
        · exact IsTrans.trans _ _ _ hr (List.rel_of_sorted_cons hs y hyl2)
      rw [List.filter_cons]
      cases hp : p x with
      | false => simp [hp]
      | true =>
        simp only [hp, if_true]
        exact (orderedInsert_eq_cons hall).symm
    · rw [show (b :: l).orderedInsert scoreDesc x = b :: l.orderedInsert scoreDesc x from by
        simp [List.orderedInsert, hr]]
      rw [List.filter_cons, List.filter_cons, ih hs.of_cons]
      by_cases hp : p x = true <;> by_cases hpb : p b = true <;>
        simp [hp, hpb, List.orderedInsert, hr]

theorem filter_insertionSort (p : α × ℕ → Bool) (l : List (α × ℕ)) :
    (l.insertionSort scoreDesc).filter p = (l.filter p).insertionSort scoreDesc := by
  induction l with
  | nil => rfl
  | cons x l ih =>
    rw [List.insertionSort, filter_orderedInsert (List.sorted_insertionSort _ _), ih,
      List.filter_cons]
    by_cases hp : p x = true <;> simp [hp, List.insertionSort]

theorem orderedInsert_map_pair (f : α → ℕ) (x : α) (l : List α) :
    (l.map (fun a => (a, f a))).orderedInsert scoreDesc (x, f x) =
      (l.orderedInsert (keyDesc f) x).map (fun a => (a, f a)) := by
  induction l with
  | nil => rfl
  | cons b l ih =>
    by_cases h : f b ≤ f x
    · rw [List.map_cons, List.orderedInsert_of_le _ _ (show scoreDesc (x, f x) (b, f b) from h),
        List.orderedInsert_of_le _ _ (show keyDesc f x b from h), List.map_cons, List.map_cons]
    · have h1 : ¬ scoreDesc (x, f x) (b, f b) := h
      have h2 : ¬ keyDesc f x b := h
      rw [List.map_cons]
      simp only [List.orderedInsert, if_neg h1, if_neg h2, List.map_cons]
      rw [ih]

theorem insertionSort_map_pair (f : α → ℕ) (l : List α) :
    (l.map (fun a => (a, f a))).insertionSort scoreDesc =
      (l.insertionSort (keyDesc f)).map (fun a => (a, f a)) := by
  induction l with
  | nil => rfl
  | cons x l ih =>
    rw [List.map_cons, List.insertionSort, List.insertionSort, ih, orderedInsert_map_pair]

theorem orderedInsert_map_snd (f : α → ℕ) (x : ℕ × α) (L : List (ℕ × α))
    (hcomp : ∀ y ∈ L, (lexDesc f x y ↔ keyDesc f x.2 y.2)) :
    (L.orderedInsert (lexDesc f) x).map Prod.snd =
      (L.map Prod.snd).orderedInsert (keyDesc f) x.2 := by
  induction L with
  | nil => rfl
  | cons b L ih =>
    by_cases h : lexDesc f x b
    · rw [List.orderedInsert_of_le _ _ h, List.map_cons, List.map_cons,
        List.orderedInsert_of_le _ _ ((hcomp b (List.mem_cons_self _ _)).mp h)]
    · have h2 : ¬ keyDesc f x.2 b.2 := fun hk => h ((hcomp b (List.mem_cons_self _ _)).mpr hk)
      simp only [List.orderedInsert, if_neg h, List.map_cons, if_neg h2]
      rw [ih (fun y hy => hcomp y (List.mem_cons_of_mem _ hy))]

theorem insertionSort_map_snd (f : α → ℕ) (L : List (ℕ × α))
    (hidx : L.Pairwise (fun a b => a.1 < b.1)) :
    (L.insertionSort (lexDesc f)).map Prod.snd =
      (L.map Prod.snd).insertionSort (keyDesc f) := by
  induction L with
  | nil => rfl
  | cons x L ih =>
    rw [List.insertionSort, List.map_cons, List.insertionSort]
    rw [← ih (List.pairwise_cons.mp hidx).2]
    apply orderedInsert_map_snd
    intro y hy
    have hyL : y ∈ L := (List.perm_insertionSort (lexDesc f) L).mem_iff.mp hy
    have hlt : x.1 < y.1 := (List.pairwise_cons.mp hidx).1 y hyL
    unfold lexDesc keyDesc
    constructor
    · rintro (h | ⟨h1, _⟩)
      · exact le_of_lt h
      · exact le_of_eq h1.symm
    · intro h
      rcases Nat.lt_or_ge (f y.2) (f x.2) with h1 | h1
      · exact Or.inl h1
      · exact Or.inr ⟨Nat.le_antisymm h1 h, Nat.le_of_lt hlt⟩

theorem pairwise_lt_enum (l : List α) : l.enum.Pairwise (fun a b => a.1 < b.1) := by
  have h := List.pairwise_lt_range l.length
  rw [← List.enum_map_fst l] at h
  exact List.pairwise_map.mp h

theorem map_snd_filter_enum (q : α → Bool) (l : List α) :
    (l.enum.filter (fun p => q p.2)).map Prod.snd = l.filter q := by
  have h : (l.enum.map Prod.snd).filter q =
      (l.enum.filter (q ∘ Prod.snd)).map Prod.snd := List.filter_map _ _
  rw [List.enum_map_snd] at h
  exact h.symm

theorem searchPipeline_eq (f : α → ℕ) (R : List α) (N : ℕ) :
    ((((R.map (fun a => (a, f a))).insertionSort scoreDesc).filter
        (fun s => decide (0 < s.2))).take N).map Prod.fst =
      (((R.enum.filter (fun p => decide (1 ≤ f p.2))).insertionSort
        (lexDesc f)).map Prod.snd).take N := by
  rw [filter_insertionSort, List.filter_map, insertionSort_map_pair, List.map_take,
    List.map_map]
  rw [insertionSort_map_snd f _
    (List.Pairwise.sublist (List.filter_sublist _) (pairwise_lt_enum R))]
  have h2 := map_snd_filter_enum (fun a => decide (1 ≤ f a)) R
  rw [h2]
  have h3 : (Prod.fst ∘ fun a : α => (a, f a)) = id := rfl
  rw [h3, List.map_id]
  have h4 : ((fun s : α × ℕ => decide (0 < s.2)) ∘ fun a : α => (a, f a)) =
      fun a : α => decide (1 ≤ f a) := rfl
  rw [h4]

/-- Claim C3: for a duplicate-free term set, both `searchKnowledgeArticles`
and `searchScripts` return exactly the records whose haystack matches at
least one term, sorted by descending count of distinct matched terms with
ties in original corpus order, truncated to the first `limit` records;
the result length never exceeds the limit. -/
theorem search_results_spec :
    ∀ (terms : List Str) (articles : List KnowledgeArticleRow)
      (scripts : List ScriptRow) (N : ℕ),
      terms.Nodup →
      searchKnowledgeArticles terms articles N =
        searchSpec (fun a => distinctScore terms (kbHaystack a)) articles N ∧
      (searchKnowledgeArticles terms articles N).length ≤ N ∧
      searchScripts terms scripts N =
        searchSpec (fun s => distinctScore terms (scriptHaystack s)) scripts N ∧
      (searchScripts terms scripts N).length ≤ N := by
  intro terms articles scripts N h
  have hkb : (fun a : KnowledgeArticleRow => distinctScore terms (kbHaystack a)) =
      (fun a => scoreOf terms (kbHaystack a)) :=
    funext (fun a => (countP_eq_distinctScore terms _ h).symm)
  have hsc : (fun s : ScriptRow => distinctScore terms (scriptHaystack s)) =
      (fun s => scoreOf terms (scriptHaystack s)) :=
    funext (fun s => (countP_eq_distinctScore terms _ h).symm)
  refine ⟨?_, ?_, ?_, ?_⟩
  · rw [show searchSpec (fun a => distinctScore terms (kbHaystack a)) articles N =
        searchSpec (fun a => scoreOf terms (kbHaystack a)) articles N from by rw [hkb]]
    simp only [searchKnowledgeArticles, searchSpec]
    exact searchPipeline_eq _ articles N
  · simp only [searchKnowledgeArticles]
    rw [List.length_map, List.length_take]
    exact min_le_left _ _
  · rw [show searchSpec (fun s => distinctScore terms (scriptHaystack s)) scripts N =
        searchSpec (fun s => scoreOf terms (scriptHaystack s)) scripts N from by rw [hsc]]
    simp only [searchScripts, searchSpec]
    exact searchPipeline_eq _ scripts N
  · simp only [searchScripts]
    rw [List.length_map, List.length_take]
    exact min_le_left _ _

set_option maxRecDepth 4000 in
/-- Witness for claim C3 at the specification's own example: terms
`password`, `reset` against a two-article corpus, and against a
one-script corpus. -/
theorem search_results_spec_witness :
    ([("password").data, ("reset").data] : List Str).Nodup ∧
    searchKnowledgeArticles [("password").data, ("reset").data]
      [{ KB_Article_ID := ("A").data, Title := some ("Password Reset Steps").data },
       { KB_Article_ID := ("B").data, Title := some ("Unrelated Billing Issue").data }] 10 =
      searchSpec (fun a => distinctScore [("password").data, ("reset").data] (kbHaystack a))
        [{ KB_Article_ID := ("A").data, Title := some ("Password Reset Steps").data },
         { KB_Article_ID := ("B").data, Title := some ("Unrelated Billing Issue").data }] 10 ∧
    searchScripts [("password").data, ("reset").data]
      [{ Script_ID := ("S1").data, Script_Title := some ("Reset tool").data }] 5 =
      searchSpec (fun s => distinctScore [("password").data, ("reset").data] (scriptHaystack s))
        [{ Script_ID := ("S1").data, Script_Title := some ("Reset tool").data }] 5 :=
  ⟨by decide,
   (search_results_spec [("password").data, ("reset").data]
     [{ KB_Article_ID := ("A").data, Title := some ("Password Reset Steps").data },
      { KB_Article_ID := ("B").data, Title := some ("Unrelated Billing Issue").data }]
     [{ Script_ID := ("S1").data, Script_Title := some ("Reset tool").data }] 10
     (by decide)).1,
   (search_results_spec [("password").data, ("reset").data]
     [{ KB_Article_ID := ("A").data, Title := some ("Password Reset Steps").data },
      { KB_Article_ID := ("B").data, Title := some ("Unrelated Billing Issue").data }]
     [{ Script_ID := ("S1").data, Script_Title := some ("Reset tool").data }] 5
     (by decide)).2.2.1⟩

end TrustLoop
